import Mathlib

/-!
Verification development for the iterative spatiotemporal clustering core of
`expedition_clustering/pipeline.py`.

The pipeline's clustering primitive is sklearn's `DBSCAN` with
`min_samples=1`: every point is a core point, the noise label `-1` is never
produced, and the resulting labels are exactly the connected components of the
"within `eps`" neighbourhood graph, numbered in order of first occurrence while
scanning the points in index order (the first point always receives label 0).
We embed this primitive as `dbscanLabels` over an abstract Boolean
neighbourhood predicate `near` (the code delegates the metric evaluation to
sklearn; the haversine metric itself is embedded separately as `havDist`).

`compSet adj n i` computes, by saturating neighbourhood expansion, the set of
indices reachable from `i` in the graph on `{0, ..., n-1}` with adjacency
`adj`; `repIdx` is the least index of the component, and `labelAt` numbers the
components by their least index in increasing order, which coincides with
sklearn's first-seen numbering.
-/

namespace ExpedCluster

/-- One step of neighbourhood expansion: add to `s` every vertex of
`{0, ..., n-1}` not already in `s` that is adjacent to some member of `s`. -/
def grow (adj : Nat → Nat → Bool) (n : Nat) (s : List Nat) : List Nat :=
  s ++ (List.range n).filter (fun j => !s.contains j && s.any (fun i => adj i j))

/-- Iterated neighbourhood expansion. -/
def growN (adj : Nat → Nat → Bool) (n : Nat) : Nat → List Nat → List Nat
  | 0, s => s
  | k + 1, s => growN adj n k (grow adj n s)

/-- The component of vertex `i`: `n` rounds of expansion starting from `{i}`
saturate on a graph with `n` vertices. -/
def compSet (adj : Nat → Nat → Bool) (n i : Nat) : List Nat :=
  growN adj n n [i]

/-- The least index in the component of `i` (the representative). -/
def repIdx (adj : Nat → Nat → Bool) (n i : Nat) : Nat :=
  (compSet adj n i).foldr Nat.min i

/-- sklearn's cluster label of vertex `i`: the number of components whose
least index is smaller than that of `i`'s component. -/
def labelAt (adj : Nat → Nat → Bool) (n i : Nat) : Nat :=
  ((List.range (repIdx adj n i)).filter (fun r => repIdx adj n r == r)).length

/-- Adjacency of list positions induced by a neighbourhood predicate on
elements; out-of-range positions are adjacent to nothing. -/
def adjOf (near : α → α → Bool) (l : List α) (i j : Nat) : Bool :=
  match l.get? i, l.get? j with
  | some a, some b => near a b
  | _, _ => false

/-- Embedded `DBSCAN(min_samples=1).fit_predict`: the component label of each
point, components numbered in order of first occurrence. -/
def dbscanLabels (near : α → α → Bool) (l : List α) : List Nat :=
  (List.range l.length).map (labelAt (adjOf near l) l.length)

/-- `labels.max()` of a label list (`0` on the empty list, as the code only
consults the maximum of nonempty label arrays). -/
def labelsMax (ls : List Nat) : Nat := ls.foldr Nat.max 0

/-- A single edge usable in a connectivity chain: both endpoints are vertices
and they are adjacent. -/
def stepRel (adj : Nat → Nat → Bool) (n : Nat) (a b : Nat) : Prop :=
  a < n ∧ b < n ∧ adj a b = true

/-- Density connectivity of two vertices: a chain of adjacent vertices. -/
def Conn (adj : Nat → Nat → Bool) (n : Nat) (i j : Nat) : Prop :=
  Relation.ReflTransGen (stepRel adj n) i j

/-- Chained density connectivity at the level of list members, as the spec
phrases it: consecutive chain members lie in the list and are within the
neighbourhood radius. -/
def chainedIn (near : α → α → Bool) (l : List α) (a b : α) : Prop :=
  Relation.ReflTransGen (fun x y => x ∈ l ∧ y ∈ l ∧ near x y = true) a b

/-- A collection timestamp after `pd.to_datetime` parsing, at the two
granularities the code consults: `days` is the day-truncated offset used by
the temporal metric (`values.astype("datetime64[D]").astype(float)`), `year`
is `.dt.year` used by the sanitizer's minimum-year filter. -/
structure StartDate where
  days : Int
  year : Int
deriving DecidableEq

/-- A raw input row for `Preprocessor.transform`. The required columns
(`collectingeventid`, `latitude1`, `longitude1`, `startdate`) are present by
type; `none` models a null cell (for `startdate` also a non-null value that
`pd.to_datetime(..., errors="coerce")` turns into `NaT` — both are dropped). -/
structure RawRec where
  collectingeventid : Int
  latitude1 : Option ℚ
  longitude1 : Option ℚ
  startdate : Option StartDate
deriving DecidableEq

/-- A sanitized row: every required field present and extracted. -/
structure CleanRec where
  collectingeventid : Int
  latitude1 : ℚ
  longitude1 : ℚ
  startdate : StartDate
deriving DecidableEq

/-- Helper of `dropDuplicatesBy`: keep a row exactly when its key has not
been seen yet. -/
def dropDupsAux (key : α → κ) [DecidableEq κ] (seen : List κ) : List α → List α
  | [] => []
  | a :: as =>
    if key a ∈ seen then dropDupsAux key seen as
    else a :: dropDupsAux key (key a :: seen) as

/-- `drop_duplicates(subset=key, keep="first")`: keep the first occurrence of
each key, in order. -/
def dropDuplicatesBy (key : α → κ) [DecidableEq κ] (l : List α) : List α :=
  dropDupsAux key [] l

/-- `Preprocessor.transform`: drop duplicate `collectingeventid` (first
occurrence wins), drop rows with a null required field, drop rows with
out-of-range coordinates, drop rows dated before 1800 or after the current
time.  `today` is the value of `pd.Timestamp.utcnow().tz_localize(None)` at
call time, on the same day scale as `StartDate.days`.  The required-column
check that precedes the filters is encoded by the input type, and the final
`reset_index(drop=True)` is implicit in returning a plain list. -/
def preprocess (today : ℚ) (X : List RawRec) : List CleanRec :=
  let d1 := dropDuplicatesBy (fun r => r.collectingeventid) X
  let d2 := d1.filter (fun r =>
    r.latitude1.isSome && r.longitude1.isSome && r.startdate.isSome)
  let d3 := d2.filter (fun r =>
    match r.latitude1, r.longitude1 with
    | some la, some lo => decide (-90 ≤ la ∧ la ≤ 90 ∧ -180 ≤ lo ∧ lo ≤ 180)
    | _, _ => false)
  let d4 := d3.filter (fun r =>
    match r.startdate with
    | some d => decide (1800 ≤ d.year ∧ (d.days : ℚ) ≤ today)
    | none => false)
  d4.filterMap (fun r =>
    match r.latitude1, r.longitude1, r.startdate with
    | some la, some lo, some d => some ⟨r.collectingeventid, la, lo, d⟩
    | _, _, _ => none)

/-- A coordinate cell as `SpatialDBSCAN.transform` may receive it: numeric,
a non-numeric string, or null. -/
inductive Cell where
  | num (q : ℚ)
  | txt (s : String)
  | null
deriving DecidableEq

/-- `pd.to_numeric(..., errors="coerce")` on one cell: non-numeric values
become missing. -/
def toNumeric : Cell → Option ℚ
  | .num q => some q
  | _ => none

/-- An input row for `SpatialDBSCAN.transform` (coordinates not yet known to
be numeric). -/
structure SRec where
  collectingeventid : Int
  latitude1 : Cell
  longitude1 : Cell
  startdate : StartDate
deriving DecidableEq

/-- A fully labelled row of the clustering phase.  The three id columns are
always physically present in this embedding; whether a column semantically
exists in the dataframe is tracked by the `Frame` flags. -/
structure Rec where
  collectingeventid : Int
  latitude1 : ℚ
  longitude1 : ℚ
  startdate : StartDate
  spatial_cluster_id : Int
  temporal_cluster_id : Int
  spatiotemporal_cluster_id : Int
deriving DecidableEq

/-- A dataframe of the clustering phase: its rows plus which of the two
later id columns have been added (`spatial_cluster_id` is always present
once a `Frame` exists). -/
structure Frame where
  rows : List Rec
  hasTemporal : Bool
  hasSTC : Bool
deriving DecidableEq

def setSpatial (r : Rec) (v : Int) : Rec := { r with spatial_cluster_id := v }

def setTemporal (r : Rec) (v : Int) : Rec := { r with temporal_cluster_id := v }

def setSTC (r : Rec) (v : Int) : Rec := { r with spatiotemporal_cluster_id := v }

/-- `SpatialDBSCAN.transform`.  `nearS` is sklearn's haversine
ε-neighbourhood test on decimal-degree coordinate pairs (the code converts to
radians and compares the haversine distance against `e_dist / 6371`; see
`havNear` below for the metric itself).  Coordinates are first coerced with
`pd.to_numeric(..., errors="coerce")`; the `.error` branch models sklearn's
input validation, which rejects arrays containing NaN (what non-numeric or
null cells become) before clustering. -/
def spatialDBSCAN (nearS : ℚ × ℚ → ℚ × ℚ → Bool) (X : List SRec) :
    Except Unit Frame :=
  if X.any (fun r =>
      (toNumeric r.latitude1).isNone || (toNumeric r.longitude1).isNone) then
    .error ()
  else
    let pts := X.map (fun r =>
      ((toNumeric r.latitude1).getD 0, (toNumeric r.longitude1).getD 0))
    let ls := dbscanLabels nearS pts
    .ok
      { rows := X.enum.map (fun p =>
          { collectingeventid := p.2.collectingeventid
            latitude1 := (toNumeric p.2.latitude1).getD 0
            longitude1 := (toNumeric p.2.longitude1).getD 0
            startdate := p.2.startdate
            spatial_cluster_id := Int.ofNat (ls.getD p.1 0)
            temporal_cluster_id := 0
            spatiotemporal_cluster_id := 0 })
        hasTemporal := false
        hasSTC := false }

/-- sklearn's 1-D euclidean ε-neighbourhood test on day offsets. -/
def nearDays (eDays : ℚ) (a b : Int) : Bool :=
  decide (|(a : ℚ) - (b : ℚ)| ≤ eDays)

/-- The spatial neighbourhood test lifted to labelled rows. -/
def spatialNearRec (nearS : ℚ × ℚ → ℚ × ℚ → Bool) (a b : Rec) : Bool :=
  nearS (a.latitude1, a.longitude1) (b.latitude1, b.longitude1)

/-- The temporal neighbourhood test lifted to labelled rows. -/
def temporalNearRec (eDays : ℚ) (a b : Rec) : Bool :=
  nearDays eDays a.startdate.days b.startdate.days

/-- Temporal DBSCAN labels of one spatial group's rows. -/
def temporalLabelsOf (eDays : ℚ) (grp : List Rec) : List Nat :=
  dbscanLabels (temporalNearRec eDays) grp

/-- `TemporalDBSCAN.transform`: initialize `temporal_cluster_id`, then for
each distinct `spatial_cluster_id` run 1-D DBSCAN on that group's day
offsets and scatter the labels back over the group's rows in order (the
masked `X.loc` assignment).  Every row lies in exactly one group, so every
row receives a label. -/
def temporalDBSCAN (eDays : ℚ) (F : Frame) : Frame :=
  { rows := F.rows.enum.map (fun p =>
      let grp := F.rows.filter
        (fun r => r.spatial_cluster_id == p.2.spatial_cluster_id)
      let pos := (F.rows.take p.1).countP
        (fun r => r.spatial_cluster_id == p.2.spatial_cluster_id)
      setTemporal p.2 (Int.ofNat ((temporalLabelsOf eDays grp).getD pos 0)))
    hasTemporal := true
    hasSTC := F.hasSTC }

/-- `TemporalDBSCANRecompute.transform`: its body is the same computation as
`TemporalDBSCAN.transform`, re-run after spatial splitting. -/
def temporalRecompute (eDays : ℚ) (F : Frame) : Frame :=
  temporalDBSCAN eDays F

/-- `CombineClusters.transform`: enumerate the distinct
`(spatial_cluster_id, temporal_cluster_id)` pairs in first-seen order and
give every row the index of its pair (`drop_duplicates` + `range(len)` +
left-merge).  Any pre-existing spatiotemporal id column is dropped and
recomputed, hence the flag is set unconditionally. -/
def combineClusters (F : Frame) : Frame :=
  let pairs := dropDuplicatesBy (fun q => q)
    (F.rows.map (fun r => (r.spatial_cluster_id, r.temporal_cluster_id)))
  { rows := F.rows.map (fun r =>
      setSTC r (Int.ofNat
        (pairs.indexOf (r.spatial_cluster_id, r.temporal_cluster_id))))
    hasTemporal := F.hasTemporal
    hasSTC := true }

/-- Sorted insertion, used to model the sorted group keys that pandas
`groupby(..., sort=True)` iterates over. -/
def insertLe (le : κ → κ → Bool) (x : κ) : List κ → List κ
  | [] => [x]
  | y :: ys => if le x y then x :: y :: ys else y :: insertLe le x ys

/-- Insertion sort by a Boolean order. -/
def sortLe (le : κ → κ → Bool) : List κ → List κ
  | [] => []
  | x :: xs => insertLe le x (sortLe le xs)

/-- The positions (0-based, in the original frame) of the rows of one group,
in row order — the rows pandas `groupby` hands to one loop iteration. -/
def groupPositions (key : Rec → κ) [DecidableEq κ] (rows : List Rec) (k : κ) :
    List Nat :=
  (rows.enum.filter (fun p => decide (key p.2 = k))).map Prod.fst

/-- `np.unique`: sorted distinct values. -/
def sortedUnique (ls : List Nat) : List Nat :=
  dropDuplicatesBy (fun x => x) (sortLe (fun a b => decide (a ≤ b)) ls)

/-- Write value `v` into the mutated id field of the rows at positions `ps`
(the `X.loc[comp_rows, col] = next_label` assignment). -/
def updateAtPositions (setF : Rec → Int → Rec) (ps : List Nat) (v : Int)
    (rows : List Rec) : List Rec :=
  rows.enum.map (fun p => if ps.contains p.1 then setF p.2 v else p.2)

/-- `labels.max()` over an integer id column (callers guard the empty case). -/
def maxIdOf (l : List Int) : Int :=
  match l with
  | [] => 0
  | a :: as => as.foldl max a

/-- Process one group of a connectivity splitter: if the group has at least
two rows and its re-clustering yields more than one label, relabel every
component except the base one (`unique[0]`) with successive fresh ids from
the counter.  `orig` is the frame the groups were computed on; the state is
(current rows, next fresh id). -/
def splitOneGroup (key : Rec → κ) [DecidableEq κ] (setF : Rec → Int → Rec)
    (near : Rec → Rec → Bool) (orig : List Rec) (st : List Rec × Int) (k : κ) :
    List Rec × Int :=
  let idxs := groupPositions key orig k
  if idxs.length ≤ 1 then st
  else
    let sub := idxs.filterMap (fun i => orig.get? i)
    let ls := dbscanLabels near sub
    let uniq := sortedUnique ls
    if uniq.length == 1 then st
    else
      let base := uniq.headD 0
      uniq.foldl (fun st2 c =>
        if c == base then st2
        else
          (updateAtPositions setF
            ((idxs.zip ls).filterMap
              (fun q => if q.2 == c then some q.1 else none))
            st2.2 st2.1,
           st2.2 + 1)) st

/-- The shared algorithm of the three connectivity splitters: seed a fresh-id
counter one above the maximum of the mutated column, then process every
distinct value of the grouping column (sorted, as pandas `groupby` iterates)
with `splitOneGroup`. -/
def splitGroups (key : Rec → κ) [DecidableEq κ] (le : κ → κ → Bool)
    (getF : Rec → Int) (setF : Rec → Int → Rec) (near : Rec → Rec → Bool)
    (rows : List Rec) : List Rec :=
  let next0 : Int :=
    match rows with
    | [] => 0
    | _ => maxIdOf (rows.map getF) + 1
  let keys := sortLe le (dropDuplicatesBy (fun x => x) (rows.map key))
  (keys.foldl (splitOneGroup key setF near rows) (rows, next0)).1

/-- Boolean lexicographic order on `(spatial, temporal)` id pairs. -/
def pairLe (a b : Int × Int) : Bool :=
  decide (a.1 < b.1 ∨ (a.1 = b.1 ∧ a.2 ≤ b.2))

/-- `SpatialReconnectWithinTemporal.transform`: group by the
`(spatial_cluster_id, temporal_cluster_id)` pair, re-run spatial DBSCAN in
each group, and move every non-base spatial component to a fresh
`spatial_cluster_id`. -/
def spatialReconnectWithinTemporal (nearS : ℚ × ℚ → ℚ × ℚ → Bool) (F : Frame) :
    Frame :=
  { F with rows := (splitGroups
      (fun r => (r.spatial_cluster_id, r.temporal_cluster_id)) pairLe
      (fun r => r.spatial_cluster_id) setSpatial (spatialNearRec nearS) F.rows) }

def intLe (a b : Int) : Bool := decide (a ≤ b)

/-- `SpatialReconnectWithinSpatiotemporal.transform`: group by
`spatiotemporal_cluster_id`, re-run spatial DBSCAN per group, move non-base
components to fresh spatiotemporal ids.  Returns the frame unchanged when the
spatiotemporal column is absent (the source's early-return guard). -/
def spatialReconnectST (nearS : ℚ × ℚ → ℚ × ℚ → Bool) (F : Frame) : Frame :=
  if F.hasSTC then
    { F with rows := (splitGroups (fun r => r.spatiotemporal_cluster_id) intLe
        (fun r => r.spatiotemporal_cluster_id) setSTC (spatialNearRec nearS)
        F.rows) }
  else F

/-- `TemporalReconnectWithinSpatiotemporal.transform`: as
`spatialReconnectST` but re-clustering day offsets with radius `e_days`. -/
def temporalReconnectST (eDays : ℚ) (F : Frame) : Frame :=
  if F.hasSTC then
    { F with rows := (splitGroups (fun r => r.spatiotemporal_cluster_id) intLe
        (fun r => r.spatiotemporal_cluster_id) setSTC (temporalNearRec eDays)
        F.rows) }
  else F

/-- The structured content of the `ValueError` raised by
`ValidateSpatiotemporalConnectivity.transform`: either the internal-invariant
violation (missing `spatiotemporal_cluster_id` column) or the connectivity
failure, carrying per-axis lists of (group id, component count, group size)
and the epsilons used in the rendered message. -/
inductive ValErr where
  | missingSTC
  | disconnected (eDist eDays : ℚ) (spatialBad temporalBad : List (Int × Nat × Nat))
deriving DecidableEq

/-- The distinct `spatiotemporal_cluster_id` values, sorted as pandas
`groupby` iterates them. -/
def stcIds (F : Frame) : List Int :=
  sortLe intLe (dropDuplicatesBy (fun x => x)
    (F.rows.map (fun r => r.spatiotemporal_cluster_id)))

/-- The rows of one spatiotemporal group, in row order. -/
def groupRows (F : Frame) (g : Int) : List Rec :=
  F.rows.filter (fun r => r.spatiotemporal_cluster_id == g)

/-- The validator's per-group check for one axis: skip groups of size ≤ 1,
re-cluster the group's rows, and report
(group id, component count, group size) when the label maximum exceeds 0
(more than one component). -/
def groupCheck (near : Rec → Rec → Bool) (F : Frame) (g : Int) :
    Option (Int × Nat × Nat) :=
  let sub := groupRows F g
  if sub.length ≤ 1 then none
  else
    let m := labelsMax (dbscanLabels near sub)
    if 0 < m then some (g, m + 1, sub.length) else none

/-- `ValidateSpatiotemporalConnectivity.transform`: fail on a missing
spatiotemporal column; otherwise re-cluster every group of size ≥ 2 on both
axes and collect the groups with more than one component.  In this embedding
`startdate` is total, so the source's skip-if-all-NaN branch before the
temporal check is vacuous and omitted.  On success the (copied) frame is
returned unchanged. -/
def validate (nearS : ℚ × ℚ → ℚ × ℚ → Bool) (eDist eDays : ℚ) (F : Frame) :
    Except ValErr Frame :=
  if F.hasSTC = false then .error .missingSTC
  else
    let spatialBad := (stcIds F).filterMap (groupCheck (spatialNearRec nearS) F)
    let temporalBad := (stcIds F).filterMap (groupCheck (temporalNearRec eDays) F)
    if spatialBad.isEmpty && temporalBad.isEmpty then .ok F
    else .error (.disconnected eDist eDays spatialBad temporalBad)

/-- One example summary inside the validation error message. -/
def exampleStr (t : Int × Nat × Nat) : String :=
  "id=" ++ toString t.1 ++ " comps=" ++ toString t.2.1 ++ " size=" ++
    toString t.2.2

/-- The spatial clause of the validation error message: the count of
offending groups and at most the first 10 example summaries. -/
def spatialClause (eDist : ℚ) (sb : List (Int × Nat × Nat)) : String :=
  toString sb.length ++ " clusters spatially disconnected at e_dist=" ++
    toString eDist ++ "km (examples: " ++
    String.intercalate ", " ((sb.take 10).map exampleStr) ++ ")"

/-- The temporal clause of the validation error message. -/
def temporalClause (eDays : ℚ) (tb : List (Int × Nat × Nat)) : String :=
  toString tb.length ++ " clusters temporally disconnected at e_days=" ++
    toString eDays ++ " (examples: " ++
    String.intercalate ", " ((tb.take 10).map exampleStr) ++ ")"

/-- The human-readable message of the raised `ValueError`: one clause per
failing axis, each showing at most the first 10 offending groups. -/
def renderValErr : ValErr → String
  | .missingSTC =>
    "Missing spatiotemporal_cluster_id after iteration; pipeline state is invalid."
  | .disconnected eDist eDays sb tb =>
    String.intercalate "; "
      ((if sb.isEmpty then [] else [spatialClause eDist sb]) ++
        (if tb.isEmpty then [] else [temporalClause eDays tb]))

/-- Is `pat` a prefix of the second list? -/
def isPrefixL [BEq α] : List α → List α → Bool
  | [], _ => true
  | _ :: _, [] => false
  | a :: as, b :: bs => a == b && isPrefixL as bs

/-- Does `pat` occur as a contiguous sublist? -/
def hasSubL [BEq α] (pat : List α) : List α → Bool
  | [] => isPrefixL pat []
  | a :: rest => isPrefixL pat (a :: rest) || hasSubL pat rest

/-- Does `pat` occur as a substring of `s`? -/
def hasSubStr (pat s : String) : Bool :=
  hasSubL pat.data s.data

/-- One iteration body of `IterativeSpatiotemporalClustering.transform`: the
six sub-steps in order (temporal cluster, spatial reconnect, temporal
recompute, combine, spatiotemporal spatial reconnect, spatiotemporal temporal
reconnect). -/
def iterStep (nearS : ℚ × ℚ → ℚ × ℚ → Bool) (eDays : ℚ) (F : Frame) : Frame :=
  temporalReconnectST eDays (spatialReconnectST nearS (combineClusters
    (temporalRecompute eDays (spatialReconnectWithinTemporal nearS
      (temporalDBSCAN eDays F)))))

/-- `IterativeSpatiotemporalClustering.transform` with `max_iter` as the
first argument: run up to `max_iter` iterations, return the first iteration
output that validates, re-raise the last validation error once the budget is
exhausted, and return the input copy untouched when the loop body never runs
(`max_iter < 1`). -/
def iterLoop (nearS : ℚ × ℚ → ℚ × ℚ → Bool) (eDist eDays : ℚ) :
    Nat → Frame → Except ValErr Frame
  | 0, F => .ok F
  | k + 1, F =>
    let F2 := iterStep nearS eDays F
    match validate nearS eDist eDays F2 with
    | .ok _ => .ok F2
    | .error e =>
      match k with
      | 0 => .error e
      | m + 1 => iterLoop nearS eDist eDays (m + 1) F2

/-- The failure surface of `create_pipeline(...)`: sklearn's NaN rejection
inside `SpatialDBSCAN` or a `ValueError` from validation. -/
inductive PipeErr where
  | dbscanNaN
  | val (e : ValErr)
deriving DecidableEq

/-- Embed a sanitized row as a `SpatialDBSCAN` input row (its coordinates are
numeric cells). -/
def toSRec (r : CleanRec) : SRec :=
  ⟨r.collectingeventid, .num r.latitude1, .num r.longitude1, r.startdate⟩

/-- `create_pipeline(e_dist, e_days).fit_transform`: Preprocessor →
SpatialDBSCAN → IterativeSpatiotemporalClustering (default `max_iter = 5`) →
final ValidateSpatiotemporalConnectivity. -/
def fullPipeline (nearS : ℚ × ℚ → ℚ × ℚ → Bool) (eDist eDays today : ℚ)
    (raw : List RawRec) : Except PipeErr Frame :=
  match spatialDBSCAN nearS ((preprocess today raw).map toSRec) with
  | .error _ => .error .dbscanNaN
  | .ok F0 =>
    match iterLoop nearS eDist eDays 5 F0 with
    | .error e => .error (.val e)
    | .ok F1 =>
      match validate nearS eDist eDays F1 with
      | .error e => .error (.val e)
      | .ok F2 => .ok F2

/-- `np.radians`: degrees to radians. -/
noncomputable def radOfDeg (d : ℚ) : ℝ := (d : ℝ) * Real.pi / 180

/-- sklearn's haversine metric on `(latitude, longitude)` pairs in radians:
the central angle
`2 * arcsin(sqrt(sin²((φ1-φ2)/2) + cos φ1 · cos φ2 · sin²((λ1-λ2)/2)))`.
The code compares it against `eps = e_dist / 6371`, i.e. kilometres divided
by the Earth radius. -/
noncomputable def havDist (p q : ℝ × ℝ) : ℝ :=
  2 * Real.arcsin (Real.sqrt (Real.sin ((p.1 - q.1) / 2) ^ 2 +
    Real.cos p.1 * Real.cos q.1 * Real.sin ((p.2 - q.2) / 2) ^ 2))

/-- The spatial ε-neighbourhood relation of the code: convert decimal
degrees to radians and compare the haversine distance with `e_dist / 6371`.
An implementation of the spatial clustering supplies a Boolean test `nearS`
agreeing with this relation. -/
def havNear (eDist : ℚ) (p q : ℚ × ℚ) : Prop :=
  havDist (radOfDeg p.1, radOfDeg p.2) (radOfDeg q.1, radOfDeg q.2) ≤
    (eDist : ℝ) / 6371

/-- The frame produced by the `i`-th execution of the six-sub-step loop body
(`attemptFrame ... 0` is the loop input itself). -/
def attemptFrame (nearS : ℚ × ℚ → ℚ × ℚ → Bool) (eDays : ℚ) (F0 : Frame) :
    Nat → Frame
  | 0 => F0
  | i + 1 => iterStep nearS eDays (attemptFrame nearS eDays F0 i)

/-- The contract of the iteration controller for `max_iter = k ≥ 1`: either
some iteration `i ≤ k` is the first whose validation passes and the
controller returns that iteration's record set, or all `k` validations fail
and the controller re-raises the validation error of the final attempt. -/
def ControllerSpec (nearS : ℚ × ℚ → ℚ × ℚ → Bool) (eDist eDays : ℚ)
    (k : Nat) (F0 : Frame) : Prop :=
  (∃ i, 1 ≤ i ∧ i ≤ k ∧
    (∀ j, 1 ≤ j → j < i →
      ∃ ej, validate nearS eDist eDays (attemptFrame nearS eDays F0 j) =
        .error ej) ∧
    validate nearS eDist eDays (attemptFrame nearS eDays F0 i) =
      .ok (attemptFrame nearS eDays F0 i) ∧
    iterLoop nearS eDist eDays k F0 = .ok (attemptFrame nearS eDays F0 i)) ∨
  ((∀ j, 1 ≤ j → j ≤ k →
      ∃ ej, validate nearS eDist eDays (attemptFrame nearS eDays F0 j) =
        .error ej) ∧
    ∃ e, validate nearS eDist eDays (attemptFrame nearS eDays F0 k) =
        .error e ∧
      iterLoop nearS eDist eDays k F0 = .error e)

/-- The sanitizer's row contract as the spec states it: all required fields
present, latitude in [-90, 90], longitude in [-180, 180], year ≥ 1800 and
timestamp not after the current time; a passing row is extracted. -/
def toCleanRec? (today : ℚ) (r : RawRec) : Option CleanRec :=
  match r.latitude1, r.longitude1, r.startdate with
  | some la, some lo, some d =>
    if -90 ≤ la ∧ la ≤ 90 ∧ -180 ≤ lo ∧ lo ≤ 180 ∧ 1800 ≤ d.year ∧
        (d.days : ℚ) ≤ today
    then some ⟨r.collectingeventid, la, lo, d⟩ else none
  | _, _, _ => none

/-- The sanitizer contract as the claim states it: exactly the rows that are
the first occurrence of their event id (no row of the preceding prefix
carries the same id) and pass every validity filter, in input order. -/
def sanitizeSpec (today : ℚ) (raw : List RawRec) : List CleanRec :=
  ((raw.enum.filter (fun p => (raw.take p.1).all
    (fun q => !(decide (q.collectingeventid = p.2.collectingeventid))))).map
      Prod.snd).filterMap (toCleanRec? today)

/-- Scenario D's six-row input: a valid row, a duplicate `collectingeventid`,
a latitude of 95, a pre-1800 date, a longitude of 190, and a second valid
row.  Day offsets are days since the 1970 epoch. -/
def scenarioD : List RawRec :=
  [⟨1, some 0, some 0, some ⟨18262, 2020⟩⟩,
   ⟨1, some 0, some 0, some ⟨18262, 2020⟩⟩,
   ⟨2, some 95, some 50, some ⟨18262, 2020⟩⟩,
   ⟨3, some 10, some 5, some ⟨-98530, 1700⟩⟩,
   ⟨4, some (-20), some 190, some ⟨18779, 2021⟩⟩,
   ⟨5, some 12, some 12, some ⟨19066, 2022⟩⟩]

/-- A two-row frame whose rows lie in different spatial clusters (ids 0 and
1), far apart in space and time. -/
def frameC7 : Frame :=
  { rows := [
      { collectingeventid := 1, latitude1 := 0, longitude1 := 0,
        startdate := ⟨0, 2020⟩, spatial_cluster_id := 0,
        temporal_cluster_id := -1, spatiotemporal_cluster_id := 0 },
      { collectingeventid := 2, latitude1 := 50, longitude1 := 50,
        startdate := ⟨1000, 2022⟩, spatial_cluster_id := 1,
        temporal_cluster_id := -1, spatiotemporal_cluster_id := 0 }],
    hasTemporal := false, hasSTC := false }

/-- A `SpatialDBSCAN` input whose coordinate column contains a non-numeric
string value. -/
def scenarioC9 : List SRec :=
  [⟨1, Cell.txt "abc", Cell.num 0, ⟨0, 2020⟩⟩,
   ⟨2, Cell.num 1, Cell.num 1, ⟨0, 2020⟩⟩]

/-- The identity of a row: everything except the three mutable id columns. -/
def coreOf (r : Rec) : Int × ℚ × ℚ × StartDate :=
  (r.collectingeventid, r.latitude1, r.longitude1, r.startdate)

def rB0 : Rec :=
  { collectingeventid := 1, latitude1 := 0, longitude1 := 0,
    startdate := ⟨18262, 2020⟩, spatial_cluster_id := 0,
    temporal_cluster_id := 0, spatiotemporal_cluster_id := 7 }

def rB1 : Rec :=
  { collectingeventid := 2, latitude1 := 0, longitude1 := 2,
    startdate := ⟨18262, 2020⟩, spatial_cluster_id := 0,
    temporal_cluster_id := 0, spatiotemporal_cluster_id := 7 }

/-- Scenario B input: two records at (0,0) and (0,2) degrees, same date,
sharing a spatiotemporal cluster id, fed directly to the validator. -/
def scenBFrame : Frame :=
  { rows := [rB0, rB1], hasTemporal := true, hasSTC := true }

/-- The contract the three connectivity splitters share, relative to the
grouping column `key`, the mutated id column (`getF`/`setF`) and the axis
neighbourhood `near`: rows of groups of size ≤ 1 are untouched; rows of the
base component (label 0, the first label encountered) are untouched; every
row is untouched or relabeled strictly above the pre-call column maximum
(hence collides with no pre-existing id); and relabeled rows of the same
group receive ids that agree exactly when their component labels agree. -/
def SplitterSpec (key : Rec → κ) [DecidableEq κ] (getF : Rec → Int)
    (setF : Rec → Int → Rec) (near : Rec → Rec → Bool)
    (rows res : List Rec) : Prop :=
  (∀ i r, rows.get? i = some r →
    (groupPositions key rows (key r)).length ≤ 1 → res.get? i = some r) ∧
  (∀ i r t, rows.get? i = some r →
    (groupPositions key rows (key r)).get? t = some i →
    (dbscanLabels near ((groupPositions key rows (key r)).filterMap
      rows.get?)).get? t = some 0 →
    res.get? i = some r) ∧
  (∀ i, res.get? i = rows.get? i ∨
    ∃ r v, rows.get? i = some r ∧ res.get? i = some (setF r v) ∧
      maxIdOf (rows.map getF) < v) ∧
  (∀ i i' t t' c c' r r', rows.get? i = some r → rows.get? i' = some r' →
    key r' = key r →
    (groupPositions key rows (key r)).get? t = some i →
    (dbscanLabels near ((groupPositions key rows (key r)).filterMap
      rows.get?)).get? t = some c →
    (groupPositions key rows (key r)).get? t' = some i' →
    (dbscanLabels near ((groupPositions key rows (key r)).filterMap
      rows.get?)).get? t' = some c' →
    c ≠ 0 → c' ≠ 0 →
    ∃ v v', res.get? i = some (setF r v) ∧ res.get? i' = some (setF r' v') ∧
      (∀ r2 ∈ rows, getF r2 < v) ∧ (∀ r2 ∈ rows, getF r2 < v') ∧
      (v = v' ↔ c = c'))

/-- Chain connectivity through a list at the level of a propositional
neighbourhood relation (the spec's "chain of records within that group whose
consecutive members are within the radius"). -/
def chainedProp (R : α → α → Prop) (l : List α) (a b : α) : Prop :=
  Relation.ReflTransGen (fun x y => x ∈ l ∧ y ∈ l ∧ R x y) a b

theorem subset_grow (adj : Nat → Nat → Bool) (n : Nat) (s : List Nat) :
    ∀ x ∈ s, x ∈ grow adj n s := by
  intro x hx
  exact List.mem_append.mpr (Or.inl hx)

theorem mem_grow_sound (adj : Nat → Nat → Bool) (n : Nat) (s : List Nat) {x : Nat}
    (hx : x ∈ grow adj n s) :
    x ∈ s ∨ (x < n ∧ ∃ i ∈ s, adj i x = true) := by
  rcases List.mem_append.mp hx with h | h
  · exact Or.inl h
  · right
    rcases List.mem_filter.mp h with ⟨hrange, hcond⟩
    simp only [Bool.and_eq_true] at hcond
    rcases hcond with ⟨-, hany⟩
    rcases List.any_eq_true.mp hany with ⟨i, hi, hadj⟩
    exact ⟨List.mem_range.mp hrange, i, hi, hadj⟩

theorem mem_grow_complete (adj : Nat → Nat → Bool) (n : Nat) (s : List Nat)
    {i x : Nat} (hi : i ∈ s) (hadj : adj i x = true) (hx : x < n) :
    x ∈ grow adj n s := by
  by_cases hmem : x ∈ s
  · exact subset_grow adj n s x hmem
  · refine List.mem_append.mpr (Or.inr ?_)
    refine List.mem_filter.mpr ⟨List.mem_range.mpr hx, ?_⟩
    simp only [Bool.and_eq_true]
    refine ⟨?_, List.any_eq_true.mpr ⟨i, hi, hadj⟩⟩
    simp [hmem]

theorem grow_nodup (adj : Nat → Nat → Bool) (n : Nat) (s : List Nat)
    (hs : s.Nodup) : (grow adj n s).Nodup := by
  refine List.Nodup.append hs ((List.nodup_range n).filter _) ?_
  intro x hxs hxf
  rcases List.mem_filter.mp hxf with ⟨-, hcond⟩
  simp only [Bool.and_eq_true, Bool.not_eq_true'] at hcond
  rcases hcond with ⟨hnot, -⟩
  simp at hnot
  exact hnot hxs

theorem grow_bounded (adj : Nat → Nat → Bool) (n : Nat) (s : List Nat)
    (hs : ∀ x ∈ s, x < n) : ∀ x ∈ grow adj n s, x < n := by
  intro x hx
  rcases mem_grow_sound adj n s hx with h | ⟨hlt, -⟩
  · exact hs x h
  · exact hlt

theorem grow_length (adj : Nat → Nat → Bool) (n : Nat) (s : List Nat)
    (hne : grow adj n s ≠ s) : s.length + 1 ≤ (grow adj n s).length := by
  unfold grow at hne ⊢
  rcases hfe : (List.range n).filter
      (fun j => !s.contains j && s.any (fun i => adj i j)) with _ | ⟨a, t⟩
  · rw [hfe, List.append_nil] at hne
    exact absurd rfl hne
  · rw [List.length_append]
    simp only [List.length_cons]
    omega

theorem growN_of_fix (adj : Nat → Nat → Bool) (n : Nat) (s : List Nat)
    (hfix : grow adj n s = s) : ∀ k, growN adj n k s = s := by
  intro k
  induction k with
  | zero => rfl
  | succ m ih =>
    show growN adj n m (grow adj n s) = s
    rw [hfix]
    exact ih

theorem nodup_bounded_length (s : List Nat) (n : Nat) (hs : s.Nodup)
    (hb : ∀ x ∈ s, x < n) : s.length ≤ n := by
  have h1 : s.toFinset.card = s.length := List.toFinset_card_of_nodup hs
  have h2 : s.toFinset ⊆ Finset.range n := by
    intro x hx
    exact Finset.mem_range.mpr (hb x (List.mem_toFinset.mp hx))
  have := Finset.card_le_card h2
  rw [h1, Finset.card_range] at this
  exact this

theorem growN_fix (adj : Nat → Nat → Bool) (n : Nat) :
    ∀ (k : Nat) (s : List Nat), s.Nodup → (∀ x ∈ s, x < n) →
      n + 1 ≤ k + s.length →
      grow adj n (growN adj n k s) = growN adj n k s := by
  intro k
  induction k with
  | zero =>
    intro s hs hb hlen
    have := nodup_bounded_length s n hs hb
    omega
  | succ m ih =>
    intro s hs hb hlen
    by_cases hfix : grow adj n s = s
    · have hall := growN_of_fix adj n s hfix
      show grow adj n (growN adj n m (grow adj n s)) = growN adj n m (grow adj n s)
      rw [hfix, hall m, hfix]
    · show grow adj n (growN adj n m (grow adj n s)) = growN adj n m (grow adj n s)
      refine ih (grow adj n s) (grow_nodup adj n s hs) (grow_bounded adj n s hb) ?_
      have := grow_length adj n s hfix
      omega

theorem subset_growN (adj : Nat → Nat → Bool) (n : Nat) :
    ∀ (k : Nat) (s : List Nat), ∀ x ∈ s, x ∈ growN adj n k s := by
  intro k
  induction k with
  | zero => intro s x hx; exact hx
  | succ m ih =>
    intro s x hx
    exact ih (grow adj n s) x (subset_grow adj n s x hx)

theorem mem_compSet_self (adj : Nat → Nat → Bool) (n i : Nat) :
    i ∈ compSet adj n i :=
  subset_growN adj n n [i] i (List.mem_singleton.mpr rfl)

theorem compSet_fix (adj : Nat → Nat → Bool) {n i : Nat} (hi : i < n) :
    grow adj n (compSet adj n i) = compSet adj n i := by
  refine growN_fix adj n n [i] (List.nodup_singleton i) ?_ ?_
  · intro x hx
    rw [List.mem_singleton.mp hx]
    exact hi
  · simp

theorem growN_invariant (adj : Nat → Nat → Bool) (n : Nat) (P : Nat → Prop)
    (hstep : ∀ a b, P a → stepRel adj n a b → P b) :
    ∀ (k : Nat) (s : List Nat), (∀ x ∈ s, x < n ∧ P x) →
      ∀ x ∈ growN adj n k s, x < n ∧ P x := by
  intro k
  induction k with
  | zero => intro s hs x hx; exact hs x hx
  | succ m ih =>
    intro s hs x hx
    refine ih (grow adj n s) ?_ x hx
    intro y hy
    rcases mem_grow_sound adj n s hy with h | ⟨hlt, a, ha, hadj⟩
    · exact hs y h
    · rcases hs a ha with ⟨haLt, haP⟩
      exact ⟨hlt, hstep a y haP ⟨haLt, hlt, hadj⟩⟩

theorem conn_of_mem_compSet (adj : Nat → Nat → Bool) {n i : Nat} (hi : i < n) :
    ∀ x ∈ compSet adj n i, x < n ∧ Conn adj n i x := by
  refine growN_invariant adj n (fun x => Conn adj n i x) ?_ n [i] ?_
  · intro a b ha hab
    exact Relation.ReflTransGen.tail ha hab
  · intro x hx
    rw [List.mem_singleton.mp hx]
    exact ⟨hi, Relation.ReflTransGen.refl⟩

theorem mem_compSet_of_conn (adj : Nat → Nat → Bool) {n i j : Nat} (hi : i < n)
    (h : Conn adj n i j) : j ∈ compSet adj n i := by
  induction h with
  | refl => exact mem_compSet_self adj n i
  | tail hab hbc ih =>
    rcases hbc with ⟨hb, hc, hadj⟩
    have := mem_grow_complete adj n (compSet adj n i) ih hadj hc
    rwa [compSet_fix adj hi] at this

theorem foldrMin_le_seed (l : List Nat) (a : Nat) : l.foldr Nat.min a ≤ a := by
  induction l with
  | nil => exact Nat.le_refl a
  | cons x xs ih => exact Nat.le_trans (Nat.min_le_right x (xs.foldr Nat.min a)) ih

theorem foldrMin_le_mem (l : List Nat) (a : Nat) : ∀ x ∈ l, l.foldr Nat.min a ≤ x := by
  induction l with
  | nil => intro x hx; cases hx
  | cons y ys ih =>
    intro x hx
    rcases List.mem_cons.mp hx with h | h
    · rw [h]
      exact Nat.min_le_left y (ys.foldr Nat.min a)
    · exact Nat.le_trans (Nat.min_le_right y (ys.foldr Nat.min a)) (ih x h)

theorem foldrMin_mem_or (l : List Nat) (a : Nat) :
    l.foldr Nat.min a = a ∨ l.foldr Nat.min a ∈ l := by
  induction l with
  | nil => exact Or.inl rfl
  | cons y ys ih =>
    show (Nat.min y (ys.foldr Nat.min a) = a) ∨
      (Nat.min y (ys.foldr Nat.min a) ∈ y :: ys)
    by_cases h : y ≤ ys.foldr Nat.min a
    · have hm : Nat.min y (ys.foldr Nat.min a) = y := min_eq_left h
      rw [hm]
      exact Or.inr (List.mem_cons_self y ys)
    · have hm : Nat.min y (ys.foldr Nat.min a) = ys.foldr Nat.min a :=
        min_eq_right (Nat.le_of_not_le h)
      rw [hm]
      rcases ih with h' | h'
      · exact Or.inl h'
      · exact Or.inr (List.mem_cons.mpr (Or.inr h'))

theorem repIdx_le_self (adj : Nat → Nat → Bool) (n i : Nat) : repIdx adj n i ≤ i :=
  foldrMin_le_seed _ i

theorem repIdx_mem (adj : Nat → Nat → Bool) (n i : Nat) :
    repIdx adj n i ∈ compSet adj n i := by
  rcases foldrMin_mem_or (compSet adj n i) i with h | h
  · rw [repIdx, h]
    exact mem_compSet_self adj n i
  · exact h

theorem repIdx_le_mem (adj : Nat → Nat → Bool) (n i : Nat) :
    ∀ x ∈ compSet adj n i, repIdx adj n i ≤ x :=
  foldrMin_le_mem _ i

theorem repIdx_lt (adj : Nat → Nat → Bool) {n i : Nat} (hi : i < n) :
    repIdx adj n i < n :=
  (conn_of_mem_compSet adj hi _ (repIdx_mem adj n i)).1

theorem repIdx_zero (adj : Nat → Nat → Bool) (n : Nat) : repIdx adj n 0 = 0 :=
  Nat.le_zero.mp (repIdx_le_self adj n 0)

theorem conn_symm (adj : Nat → Nat → Bool) (n : Nat)
    (hsym : ∀ a b, adj a b = adj b a) {i j : Nat} (h : Conn adj n i j) :
    Conn adj n j i := by
  refine Relation.ReflTransGen.symmetric ?_ h
  intro a b hab
  exact ⟨hab.2.1, hab.1, (hsym a b) ▸ hab.2.2⟩

theorem conn_of_repIdx_mem (adj : Nat → Nat → Bool) {n i : Nat} (hi : i < n) :
    Conn adj n i (repIdx adj n i) :=
  (conn_of_mem_compSet adj hi _ (repIdx_mem adj n i)).2

theorem mem_compSet_congr (adj : Nat → Nat → Bool) (n : Nat)
    (hsym : ∀ a b, adj a b = adj b a) {i j : Nat} (hi : i < n) (hj : j < n)
    (h : Conn adj n i j) : ∀ x, x ∈ compSet adj n i ↔ x ∈ compSet adj n j := by
  intro x
  constructor
  · intro hx
    exact mem_compSet_of_conn adj hj
      (Relation.ReflTransGen.trans (conn_symm adj n hsym h)
        (conn_of_mem_compSet adj hi x hx).2)
  · intro hx
    exact mem_compSet_of_conn adj hi
      (Relation.ReflTransGen.trans h (conn_of_mem_compSet adj hj x hx).2)

theorem repIdx_eq_of_conn (adj : Nat → Nat → Bool) (n : Nat)
    (hsym : ∀ a b, adj a b = adj b a) {i j : Nat} (hi : i < n) (hj : j < n)
    (h : Conn adj n i j) : repIdx adj n i = repIdx adj n j := by
  have hmem := mem_compSet_congr adj n hsym hi hj h
  refine Nat.le_antisymm ?_ ?_
  · exact repIdx_le_mem adj n i _ ((hmem _).mpr (repIdx_mem adj n j))
  · exact repIdx_le_mem adj n j _ ((hmem _).mp (repIdx_mem adj n i))

theorem conn_of_repIdx_eq (adj : Nat → Nat → Bool) (n : Nat)
    (hsym : ∀ a b, adj a b = adj b a) {i j : Nat} (hi : i < n) (hj : j < n)
    (h : repIdx adj n i = repIdx adj n j) : Conn adj n i j := by
  refine Relation.ReflTransGen.trans (conn_of_repIdx_mem adj hi) ?_
  rw [h]
  exact conn_symm adj n hsym (conn_of_repIdx_mem adj hj)

theorem repIdx_idem (adj : Nat → Nat → Bool) (n : Nat)
    (hsym : ∀ a b, adj a b = adj b a) {i : Nat} (hi : i < n) :
    repIdx adj n (repIdx adj n i) = repIdx adj n i :=
  (repIdx_eq_of_conn adj n hsym hi (repIdx_lt adj hi)
    (conn_of_repIdx_mem adj hi)).symm

theorem cnt_lt_cnt (p : Nat → Bool) {a b : Nat} (hab : a < b) (hp : p a = true) :
    ((List.range a).filter p).length < ((List.range b).filter p).length := by
  induction b with
  | zero => cases hab
  | succ m ih =>
    rcases Nat.lt_succ_iff_lt_or_eq.mp hab with h | h
    · refine Nat.lt_of_lt_of_le (ih h) ?_
      rw [List.range_succ, List.filter_append, List.length_append]
      exact Nat.le_add_right _ _
    · subst h
      rw [List.range_succ, List.filter_append, List.length_append]
      simp [hp]

theorem labelAt_eq_zero_iff (adj : Nat → Nat → Bool) (n i : Nat) :
    labelAt adj n i = 0 ↔ repIdx adj n i = 0 := by
  constructor
  · intro h
    by_contra hne
    have h0 : 0 < repIdx adj n i := Nat.pos_of_ne_zero hne
    have hp : (fun r => repIdx adj n r == r) 0 = true := by
      simp [repIdx_zero adj n]
    have := cnt_lt_cnt (fun r => repIdx adj n r == r) h0 hp
    rw [labelAt] at h
    omega
  · intro h
    simp [labelAt, h]

theorem repIdx_eq_of_labelAt_eq (adj : Nat → Nat → Bool) (n : Nat)
    (hsym : ∀ a b, adj a b = adj b a) {i j : Nat} (hi : i < n) (hj : j < n)
    (h : labelAt adj n i = labelAt adj n j) : repIdx adj n i = repIdx adj n j := by
  rcases Nat.lt_trichotomy (repIdx adj n i) (repIdx adj n j) with hlt | heq | hgt
  · exfalso
    have hp : (fun r => repIdx adj n r == r) (repIdx adj n i) = true := by
      simp [repIdx_idem adj n hsym hi]
    have := cnt_lt_cnt (fun r => repIdx adj n r == r) hlt hp
    rw [labelAt, labelAt] at h
    omega
  · exact heq
  · exfalso
    have hp : (fun r => repIdx adj n r == r) (repIdx adj n j) = true := by
      simp [repIdx_idem adj n hsym hj]
    have := cnt_lt_cnt (fun r => repIdx adj n r == r) hgt hp
    rw [labelAt, labelAt] at h
    omega

theorem labelsMax_eq_zero_iff (ls : List Nat) :
    labelsMax ls = 0 ↔ ∀ x ∈ ls, x = 0 := by
  induction ls with
  | nil => simp [labelsMax]
  | cons y ys ih =>
    show Nat.max y (labelsMax ys) = 0 ↔ _
    rw [Nat.max_eq_zero_iff]
    constructor
    · rintro ⟨hy, hys⟩ x hx
      rcases List.mem_cons.mp hx with h | h
      · rw [h]; exact hy
      · exact (ih.mp hys) x h
    · intro h
      exact ⟨h y (List.mem_cons_self y ys),
        ih.mpr (fun x hx => h x (List.mem_cons.mpr (Or.inr hx)))⟩

theorem dbscanLabels_length (near : α → α → Bool) (l : List α) :
    (dbscanLabels near l).length = l.length := by
  rw [dbscanLabels, List.length_map, List.length_range]

theorem dbscanLabels_get? (near : α → α → Bool) (l : List α) {i : Nat}
    (hi : i < l.length) :
    (dbscanLabels near l).get? i = some (labelAt (adjOf near l) l.length i) := by
  rw [dbscanLabels, List.get?_map, List.get?_range hi]
  rfl

theorem labelsMax_dbscan_eq_zero_iff (near : α → α → Bool) (l : List α) :
    labelsMax (dbscanLabels near l) = 0 ↔
      ∀ i, i < l.length → repIdx (adjOf near l) l.length i = 0 := by
  rw [labelsMax_eq_zero_iff]
  constructor
  · intro h i hi
    refine (labelAt_eq_zero_iff _ _ _).mp ?_
    refine h _ ?_
    rw [dbscanLabels]
    exact List.mem_map.mpr ⟨i, List.mem_range.mpr hi, rfl⟩
  · intro h x hx
    rw [dbscanLabels] at hx
    rcases List.mem_map.mp hx with ⟨i, hi, hxi⟩
    rw [← hxi]
    exact (labelAt_eq_zero_iff _ _ _).mpr (h i (List.mem_range.mp hi))

theorem adjOf_symm (near : α → α → Bool) (l : List α)
    (hsym : ∀ a b, near a b = near b a) :
    ∀ i j, adjOf near l i j = adjOf near l j i := by
  intro i j
  rw [adjOf, adjOf]
  cases l.get? i <;> cases l.get? j <;> simp [hsym]

theorem chained_of_conn (near : α → α → Bool) (l : List α) {i j : Nat} {a b : α}
    (hconn : Conn (adjOf near l) l.length i j)
    (ha : l.get? i = some a) (hb : l.get? j = some b) :
    chainedIn near l a b := by
  induction hconn generalizing b with
  | refl =>
    rw [ha] at hb
    cases hb
    exact Relation.ReflTransGen.refl
  | @tail x y hxy hstep ih =>
    rcases hstep with ⟨hx, hy, hadj⟩
    have hxv : l.get? x = some (l.get ⟨x, hx⟩) := List.get?_eq_get hx
    have hyv : l.get? y = some (l.get ⟨y, hy⟩) := List.get?_eq_get hy
    rw [hyv] at hb
    cases hb
    refine Relation.ReflTransGen.tail (ih hxv) ?_
    refine ⟨List.get_mem l _ _, List.get_mem l _ _, ?_⟩
    rw [adjOf, hxv, hyv] at hadj
    exact hadj

theorem conn_of_chained (near : α → α → Bool) (l : List α)
    (hrefl : ∀ a ∈ l, near a a = true) {a b : α}
    (hchain : chainedIn near l a b) :
    ∀ i j, l.get? i = some a → l.get? j = some b →
      Conn (adjOf near l) l.length i j := by
  induction hchain with
  | refl =>
    intro i j hi hj
    have hiLt : i < l.length := List.get?_eq_some.mp hi |>.1
    have hjLt : j < l.length := List.get?_eq_some.mp hj |>.1
    refine Relation.ReflTransGen.single ⟨hiLt, hjLt, ?_⟩
    rw [adjOf, hi, hj]
    refine hrefl a ?_
    exact List.mem_iff_get?.mpr ⟨i, hi⟩
  | @tail x y hax hstep ih =>
    rcases hstep with ⟨hxl, hyl, hnear⟩
    intro i j hi hj
    rcases List.get?_of_mem hxl with ⟨ix, hix⟩
    have hixLt : ix < l.length := List.get?_eq_some.mp hix |>.1
    have hjLt : j < l.length := List.get?_eq_some.mp hj |>.1
    refine Relation.ReflTransGen.tail (ih i ix hi hix) ⟨hixLt, hjLt, ?_⟩
    rw [adjOf, hix, hj]
    exact hnear

theorem conn_pairwise (adj : Nat → Nat → Bool) (n : Nat)
    (hsym : ∀ a b, adj a b = adj b a) {i j : Nat}
    (h0i : Conn adj n 0 i) (h0j : Conn adj n 0 j) : Conn adj n i j :=
  Relation.ReflTransGen.trans (conn_symm adj n hsym h0i) h0j

theorem single_component_chained (near : α → α → Bool) (l : List α)
    (hsym : ∀ a b, near a b = near b a)
    (hmax : labelsMax (dbscanLabels near l) = 0) :
    ∀ a ∈ l, ∀ b ∈ l, chainedIn near l a b := by
  intro a ha b hb
  rcases List.get?_of_mem ha with ⟨i, hi⟩
  rcases List.get?_of_mem hb with ⟨j, hj⟩
  have hiLt : i < l.length := List.get?_eq_some.mp hi |>.1
  have hjLt : j < l.length := List.get?_eq_some.mp hj |>.1
  have hrep := (labelsMax_dbscan_eq_zero_iff near l).mp hmax
  have hadjSym := adjOf_symm near l hsym
  have h0 : 0 < l.length := Nat.lt_of_le_of_lt (Nat.zero_le i) hiLt
  have hci : Conn (adjOf near l) l.length 0 i :=
    conn_of_repIdx_eq _ _ hadjSym h0 hiLt
      (by rw [repIdx_zero, hrep i hiLt])
  have hcj : Conn (adjOf near l) l.length 0 j :=
    conn_of_repIdx_eq _ _ hadjSym h0 hjLt
      (by rw [repIdx_zero, hrep j hjLt])
  exact chained_of_conn near l (conn_pairwise _ _ hadjSym hci hcj) hi hj

theorem chained_single_component (near : α → α → Bool) (l : List α)
    (hsym : ∀ a b, near a b = near b a) (hrefl : ∀ a ∈ l, near a a = true)
    (hchain : ∀ a ∈ l, ∀ b ∈ l, chainedIn near l a b) :
    labelsMax (dbscanLabels near l) = 0 := by
  refine (labelsMax_dbscan_eq_zero_iff near l).mpr ?_
  intro i hi
  have h0 : 0 < l.length := Nat.lt_of_le_of_lt (Nat.zero_le i) hi
  have h0v : l.get? 0 = some (l.get ⟨0, h0⟩) := List.get?_eq_get h0
  have hiv : l.get? i = some (l.get ⟨i, hi⟩) := List.get?_eq_get hi
  have hadjSym := adjOf_symm near l hsym
  have hc : Conn (adjOf near l) l.length 0 i :=
    conn_of_chained near l hrefl
      (hchain _ (List.get_mem l _ _) _ (List.get_mem l _ _)) 0 i h0v hiv
  have := repIdx_eq_of_conn _ _ hadjSym h0 hi hc
  rw [repIdx_zero] at this
  exact this.symm

theorem havDist_comm (p q : ℝ × ℝ) : havDist p q = havDist q p := by
  unfold havDist
  have h1 : (p.1 - q.1) / 2 = -((q.1 - p.1) / 2) := by ring
  have h2 : (p.2 - q.2) / 2 = -((q.2 - p.2) / 2) := by ring
  rw [h1, h2, Real.sin_neg, Real.sin_neg, neg_sq, neg_sq,
    mul_comm (Real.cos p.1) (Real.cos q.1)]

theorem havDist_self (p : ℝ × ℝ) : havDist p p = 0 := by
  unfold havDist
  simp

theorem havNear_symm (eDist : ℚ) (p q : ℚ × ℚ) :
    havNear eDist p q ↔ havNear eDist q p := by
  unfold havNear
  rw [havDist_comm]

theorem havNear_refl (eDist : ℚ) (h : 0 ≤ eDist) (p : ℚ × ℚ) :
    havNear eDist p p := by
  unfold havNear
  rw [havDist_self]
  have h' : (0 : ℝ) ≤ (eDist : ℝ) := by exact_mod_cast h
  have : (0 : ℝ) ≤ (eDist : ℝ) / 6371 := by positivity
  exact this

theorem radOfDeg_zero : radOfDeg 0 = 0 := by
  unfold radOfDeg
  simp

theorem radOfDeg_two : radOfDeg 2 = Real.pi / 90 := by
  unfold radOfDeg
  push_cast
  ring

theorem sin_pi_div_180_nonneg : 0 ≤ Real.sin (Real.pi / 180) := by
  refine Real.sin_nonneg_of_nonneg_of_le_pi (by positivity) ?_
  exact div_le_self Real.pi_pos.le (by norm_num)

theorem havDist_scenB :
    havDist (radOfDeg 0, radOfDeg 0) (radOfDeg 0, radOfDeg 2) = Real.pi / 90 := by
  unfold havDist
  rw [radOfDeg_zero, radOfDeg_two]
  have e1 : ((0 : ℝ) - 0) / 2 = 0 := by ring
  have e2 : ((0 : ℝ) - Real.pi / 90) / 2 = -(Real.pi / 180) := by ring
  simp only [e1, e2, Real.sin_zero, Real.sin_neg, Real.cos_zero, neg_sq]
  have e3 : (0 : ℝ) ^ 2 + 1 * 1 * Real.sin (Real.pi / 180) ^ 2 =
      Real.sin (Real.pi / 180) ^ 2 := by ring
  rw [e3, Real.sqrt_sq sin_pi_div_180_nonneg, Real.arcsin_sin]
  · ring
  · have := sin_pi_div_180_nonneg
    have hpi := Real.pi_pos
    nlinarith
  · have hpi := Real.pi_pos
    rw [div_le_div_iff (by norm_num) (by norm_num)]
    nlinarith

theorem not_havNear_scenB : ¬ havNear 1 ((0 : ℚ), (0 : ℚ)) ((0 : ℚ), (2 : ℚ)) := by
  unfold havNear
  rw [havDist_scenB]
  push_cast
  intro h
  have h3 := Real.pi_gt_three
  linarith

attribute [irreducible] dropDuplicatesBy

theorem combineClusters_hasSTC (F : Frame) : (combineClusters F).hasSTC = true :=
  rfl

theorem spatialReconnectST_flags (nearS : ℚ × ℚ → ℚ × ℚ → Bool) (F : Frame) :
    (spatialReconnectST nearS F).hasSTC = F.hasSTC ∧
      (spatialReconnectST nearS F).hasTemporal = F.hasTemporal := by
  unfold spatialReconnectST
  by_cases h : F.hasSTC <;> simp [h]

theorem temporalReconnectST_flags (eDays : ℚ) (F : Frame) :
    (temporalReconnectST eDays F).hasSTC = F.hasSTC ∧
      (temporalReconnectST eDays F).hasTemporal = F.hasTemporal := by
  unfold temporalReconnectST
  by_cases h : F.hasSTC <;> simp [h]

theorem iterStep_hasSTC (nearS : ℚ × ℚ → ℚ × ℚ → Bool) (eDays : ℚ) (F : Frame) :
    (iterStep nearS eDays F).hasSTC = true := by
  unfold iterStep
  rw [(temporalReconnectST_flags _ _).1, (spatialReconnectST_flags _ _).1]
  exact combineClusters_hasSTC _

theorem validate_error_of_hasSTC (nearS : ℚ × ℚ → ℚ × ℚ → Bool)
    (eDist eDays : ℚ) (F : Frame) (hstc : F.hasSTC = true) {e : ValErr}
    (he : validate nearS eDist eDays F = .error e) :
    ∃ sb tb, e = ValErr.disconnected eDist eDays sb tb ∧ (sb ≠ [] ∨ tb ≠ []) := by
  unfold validate at he
  rw [hstc] at he
  simp only [Bool.true_eq_false, if_false] at he
  split at he
  · cases he
  · rename_i hcond
    cases he
    refine ⟨_, _, rfl, ?_⟩
    rw [Bool.and_eq_true, List.isEmpty_iff, List.isEmpty_iff] at hcond
    by_contra hboth
    push_neg at hboth
    exact hcond ⟨hboth.1, hboth.2⟩

theorem iterLoop_error_disconnected (nearS : ℚ × ℚ → ℚ × ℚ → Bool)
    (eDist eDays : ℚ) :
    ∀ (k : Nat) (F : Frame) (e : ValErr),
      iterLoop nearS eDist eDays k F = .error e →
      ∃ sb tb, e = ValErr.disconnected eDist eDays sb tb := by
  intro k
  induction k with
  | zero => intro F e h; cases h
  | succ m ih =>
    intro F e h
    unfold iterLoop at h
    cases hv : validate nearS eDist eDays (iterStep nearS eDays F) with
    | ok G => simp [hv] at h
    | error e' =>
      cases m with
      | zero =>
        simp [hv] at h
        rcases validate_error_of_hasSTC nearS eDist eDays _
          (iterStep_hasSTC nearS eDays F) hv with ⟨sb, tb, he, -⟩
        subst h
        exact ⟨sb, tb, he⟩
      | succ m' =>
        simp [hv] at h
        exact ih _ e h

theorem validate_ok_eq (nearS : ℚ × ℚ → ℚ × ℚ → Bool) (eDist eDays : ℚ)
    (F G : Frame) (h : validate nearS eDist eDays F = .ok G) : G = F := by
  unfold validate at h
  split at h
  · cases h
  · simp only [] at h
    split at h
    · cases h
      rfl
    · cases h

theorem attemptFrame_shift (nearS : ℚ × ℚ → ℚ × ℚ → Bool) (eDays : ℚ)
    (F0 : Frame) : ∀ i, attemptFrame nearS eDays (iterStep nearS eDays F0) i =
      attemptFrame nearS eDays F0 (i + 1) := by
  intro i
  induction i with
  | zero => rfl
  | succ m ih =>
    show iterStep nearS eDays _ = iterStep nearS eDays _
    rw [ih]

theorem iterLoop_spec (nearS : ℚ × ℚ → ℚ × ℚ → Bool) (eDist eDays : ℚ) :
    ∀ (k : Nat) (F0 : Frame), 1 ≤ k → ControllerSpec nearS eDist eDays k F0 := by
  intro k
  induction k with
  | zero =>
    intro F0 h1
    exact absurd h1 (by omega)
  | succ m ih =>
    intro F0 h1
    cases hv : validate nearS eDist eDays (iterStep nearS eDays F0) with
    | ok G =>
      left
      have hG : G = iterStep nearS eDays F0 :=
        validate_ok_eq nearS eDist eDays _ G hv
      subst hG
      have ha1 : attemptFrame nearS eDays F0 1 = iterStep nearS eDays F0 := rfl
      refine ⟨1, Nat.le_refl 1, by omega, ?_, ?_, ?_⟩
      · intro j hj1 hj2
        omega
      · rw [ha1]
        exact hv
      · rw [ha1]
        unfold iterLoop
        simp [hv]
    | error e' =>
      cases m with
      | zero =>
        right
        constructor
        · intro j hj1 hj2
          have hj : j = 1 := by omega
          subst hj
          exact ⟨e', hv⟩
        · refine ⟨e', hv, ?_⟩
          unfold iterLoop
          simp [hv]
      | succ m' =>
        have hrec := ih (iterStep nearS eDays F0) (by omega)
        rcases hrec with ⟨i, hi1, hi2, hfail, hok, hres⟩ | ⟨hfail, e, hvk, hres⟩
        · left
          refine ⟨i + 1, by omega, by omega, ?_, ?_, ?_⟩
          · intro j hj1 hj2
            match j, hj1, hj2 with
            | 1, _, _ => exact ⟨e', hv⟩
            | Nat.succ (Nat.succ j''), _, hj2 =>
              have := hfail (j'' + 1) (by omega) (by omega)
              rwa [attemptFrame_shift] at this
          · rw [← attemptFrame_shift]
            exact hok
          · show iterLoop nearS eDist eDays (m' + 1 + 1) F0 = _
            unfold iterLoop
            simp only [hv]
            rw [hres, attemptFrame_shift]
        · right
          constructor
          · intro j hj1 hj2
            match j, hj1, hj2 with
            | 1, _, _ => exact ⟨e', hv⟩
            | Nat.succ (Nat.succ j''), _, hj2 =>
              have := hfail (j'' + 1) (by omega) (by omega)
              rwa [attemptFrame_shift] at this
          · refine ⟨e, ?_, ?_⟩
            · rw [← attemptFrame_shift]
              exact hvk
            · show iterLoop nearS eDist eDays (m' + 1 + 1) F0 = _
              unfold iterLoop
              simp only [hv]
              exact hres

/-- C10: when `max_iter < 1` (that is, `max_iter = 0`), the `for` loop of
`IterativeSpatiotemporalClustering.transform` never runs, `last_error` stays
unset, and the transform returns its input copy unchanged — no
`temporal_cluster_id` or `spatiotemporal_cluster_id` column is added (the
frame, flags included, is returned as is), no validation runs, and nothing is
raised; the controller's validated-output-or-error contract therefore only
holds under the precondition `max_iter ≥ 1`. -/
theorem C10_max_iter_zero_identity (nearS : ℚ × ℚ → ℚ × ℚ → Bool)
    (eDist eDays : ℚ) (F : Frame) :
    iterLoop nearS eDist eDays 0 F = Except.ok F := rfl

/-- C8: inside `IterativeSpatiotemporalClustering.transform` the validator
only ever runs on the output of the six-sub-step body, which always carries
the `spatiotemporal_cluster_id` column (the combiner precedes validation), so
the in-loop validator never produces the internal-invariant error for a
missing column; consequently every error the controller catches, retries, or
finally re-raises is a connectivity error, never the internal-invariant one —
the controller retries only connectivity failures. -/
theorem C8_missing_column_error_never_retried (nearS : ℚ × ℚ → ℚ × ℚ → Bool)
    (eDist eDays : ℚ) (F : Frame) :
    (iterStep nearS eDays F).hasSTC = true ∧
      validate nearS eDist eDays (iterStep nearS eDays F) ≠
        Except.error ValErr.missingSTC ∧
      (∀ k e, iterLoop nearS eDist eDays k F = .error e →
        ∃ sb tb, e = ValErr.disconnected eDist eDays sb tb) := by
  refine ⟨iterStep_hasSTC nearS eDays F, ?_, ?_⟩
  · intro h
    rcases validate_error_of_hasSTC nearS eDist eDays _
      (iterStep_hasSTC nearS eDays F) h with ⟨sb, tb, he, -⟩
    cases he
  · intro k e h
    exact iterLoop_error_disconnected nearS eDist eDays k F e h

/-- C2: for `max_iter = k ≥ 1` the iteration controller performs at most `k`
iterations of the six-sub-step sequence and always terminates: it returns the
record set of the first iteration whose validation passes, or, after the
`k`-th iteration fails validation, it raises the validation error of that
final attempt. -/
theorem C2_controller_terminates (nearS : ℚ × ℚ → ℚ × ℚ → Bool)
    (eDist eDays : ℚ) (k : Nat) (F0 : Frame) (hk : 1 ≤ k) :
    ControllerSpec nearS eDist eDays k F0 :=
  iterLoop_spec nearS eDist eDays k F0 hk

theorem C2_controller_terminates_witness :
    1 ≤ 1 ∧ ControllerSpec (fun _ _ => false) 1 1 1 ⟨[], false, false⟩ :=
  ⟨Nat.le_refl 1, C2_controller_terminates (fun _ _ => false) 1 1 1
    ⟨[], false, false⟩ (Nat.le_refl 1)⟩

theorem dropDupsAux_congr (key : α → κ) [DecidableEq κ] (s1 s2 : List κ)
    (h : ∀ k, k ∈ s1 ↔ k ∈ s2) :
    ∀ l, dropDupsAux key s1 l = dropDupsAux key s2 l := by
  intro l
  induction l generalizing s1 s2 with
  | nil => rfl
  | cons a as ih =>
    by_cases hmem : key a ∈ s1
    · rw [dropDupsAux, if_pos hmem, dropDupsAux, if_pos ((h _).mp hmem)]
      exact ih s1 s2 h
    · rw [dropDupsAux, if_neg hmem, dropDupsAux,
        if_neg (fun hc => hmem ((h _).mpr hc))]
      refine congrArg (a :: ·) (ih _ _ ?_)
      intro k
      simp only [List.mem_cons]
      exact or_congr (Iff.refl _) (h k)

theorem dropDupsAux_take_spec (key : α → κ) [DecidableEq κ] :
    ∀ (l pre : List α),
      dropDupsAux key (pre.map key) l =
        ((l.enum.filter (fun p => ((pre ++ l.take p.1).all
          (fun q => !(decide (key q = key p.2)))))).map Prod.snd) := by
  intro l
  induction l with
  | nil => intro pre; rfl
  | cons a as ih =>
    intro pre
    have hmemiff : (key a ∈ pre.map key) ↔
        ¬ (pre.all (fun q => !(decide (key q = key a))) = true) := by
      rw [List.all_eq_true]
      constructor
      · intro hmem hall
        rcases List.mem_map.mp hmem with ⟨q, hq, hkq⟩
        have hqa := hall q hq
        simp only [Bool.not_eq_true', decide_eq_false_iff_not] at hqa
        exact hqa hkq
      · intro hnall
        by_contra hmem
        apply hnall
        intro q hq
        simp only [Bool.not_eq_true', decide_eq_false_iff_not]
        intro hkeq
        exact hmem (List.mem_map.mpr ⟨q, hq, hkeq⟩)
    have htailEq :
        (((as.enum.map (Prod.map (· + 1) id)).filter (fun p =>
            ((pre ++ (a :: as).take p.1).all
              (fun q => !(decide (key q = key p.2)))))).map Prod.snd) =
          dropDupsAux key ((pre ++ [a]).map key) as := by
      rw [List.filter_map, List.map_map]
      have hf2 : (Prod.snd ∘ (Prod.map (· + 1) id : Nat × α → Nat × α)) =
          Prod.snd := by
        funext p
        rcases p with ⟨i, x⟩
        rfl
      have hfun : ((fun p : Nat × α => ((pre ++ (a :: as).take p.1).all
            (fun q => !(decide (key q = key p.2))))) ∘
              (Prod.map (· + 1) id : Nat × α → Nat × α)) =
          (fun p : Nat × α => (((pre ++ [a]) ++ as.take p.1).all
            (fun q => !(decide (key q = key p.2))))) := by
        funext p
        rcases p with ⟨i, x⟩
        simp [List.take_succ_cons, Prod.map]
      rw [hf2, hfun, ih (pre ++ [a])]
    rw [List.enum_cons']
    simp only [List.filter_cons, List.take_zero, List.append_nil]
    by_cases hmem : key a ∈ pre.map key
    · rw [if_neg (by simpa using hmemiff.mp hmem)]
      rw [htailEq, dropDupsAux, if_pos hmem]
      refine dropDupsAux_congr key _ _ ?_ as
      intro k
      simp only [List.map_append, List.map_cons, List.map_nil, List.mem_append,
        List.mem_singleton]
      constructor
      · exact fun h => Or.inl h
      · rintro (h | h)
        · exact h
        · rw [h]
          exact hmem
    · rw [if_pos (by simpa using (not_not.mp (fun hc => hmem (hmemiff.mpr hc))))]
      rw [List.map_cons, htailEq, dropDupsAux, if_neg hmem]
      refine congrArg (a :: ·) ?_
      refine dropDupsAux_congr key _ _ ?_ as
      intro k
      simp only [List.mem_cons, List.map_append, List.map_cons, List.map_nil,
        List.mem_append, List.mem_singleton, List.not_mem_nil, or_false]
      exact or_comm

theorem dropDuplicatesBy_take_spec (key : α → κ) [DecidableEq κ] (l : List α) :
    dropDuplicatesBy key l =
      ((l.enum.filter (fun p => ((l.take p.1).all
        (fun q => !(decide (key q = key p.2)))))).map Prod.snd) := by
  have h := dropDupsAux_take_spec key l ([] : List α)
  simpa [dropDuplicatesBy] using h

theorem preprocess_eq_sanitizeSpec (today : ℚ) (raw : List RawRec) :
    preprocess today raw = sanitizeSpec today raw := by
  unfold preprocess sanitizeSpec
  rw [List.filterMap_filter, List.filterMap_filter, List.filterMap_filter]
  rw [dropDuplicatesBy_take_spec]
  refine List.filterMap_congr ?_
  intro r hr
  rcases r with ⟨id, la, lo, sd⟩
  cases la with
  | none => simp [toCleanRec?]
  | some lav =>
    cases lo with
    | none => simp [toCleanRec?]
    | some lov =>
      cases sd with
      | none => simp [toCleanRec?]
      | some sdv =>
        simp only [toCleanRec?, Option.isSome_some, Bool.and_self, if_true,
          decide_eq_true_eq]
        by_cases h1 : -90 ≤ lav ∧ lav ≤ 90 ∧ -180 ≤ lov ∧ lov ≤ 180 <;>
          by_cases h2 : 1800 ≤ sdv.year ∧ (sdv.days : ℚ) ≤ today <;>
            simp [h1, h2]

set_option allowUnsafeReducibility true in
attribute [semireducible] dropDuplicatesBy

/-- C4: `Preprocessor.transform` returns exactly the rows that have no
missing required field, are the first occurrence of their event id, have
in-range coordinates, and have year ≥ 1800 with a timestamp not after the
current time, in input order with the index reset; on Scenario D's six rows
exactly 2 rows survive. -/
theorem C4_sanitizer_contract :
    (∀ (today : ℚ) (raw : List RawRec),
      preprocess today raw = sanitizeSpec today raw) ∧
    preprocess 20000 scenarioD =
      [⟨1, 0, 0, ⟨18262, 2020⟩⟩, ⟨5, 12, 12, ⟨19066, 2022⟩⟩] ∧
    (preprocess 20000 scenarioD).length = 2 := by
  refine ⟨preprocess_eq_sanitizeSpec, ?_, ?_⟩ <;> decide

theorem nearDays_symm (eDays : ℚ) (a b : Int) :
    nearDays eDays a b = nearDays eDays b a := by
  unfold nearDays
  rw [abs_sub_comm]

theorem temporalNearRec_symm (eDays : ℚ) (a b : Rec) :
    temporalNearRec eDays a b = temporalNearRec eDays b a :=
  nearDays_symm eDays _ _

theorem setTemporal_spatial (r : Rec) (v : Int) :
    (setTemporal r v).spatial_cluster_id = r.spatial_cluster_id := rfl

theorem setTemporal_temporal (r : Rec) (v : Int) :
    (setTemporal r v).temporal_cluster_id = v := rfl

theorem setTemporal_startdate (r : Rec) (v : Int) :
    (setTemporal r v).startdate = r.startdate := rfl

theorem filter_get?_rank (pred : α → Bool) :
    ∀ (l : List α) (p : Nat) (r : α), l.get? p = some r → pred r = true →
      (l.filter pred).get? ((l.take p).countP pred) = some r := by
  intro l
  induction l with
  | nil =>
    intro p r hp
    cases hp
  | cons x xs ih =>
    intro p r hp hpred
    cases p with
    | zero =>
      cases hp
      rw [List.take_zero]
      simp [List.filter_cons, hpred]
    | succ m =>
      rw [List.take_succ_cons, List.countP_cons]
      by_cases hx : pred x = true
      · rw [List.filter_cons, if_pos hx]
        simp only [hx, if_true]
        exact ih m r hp hpred
      · rw [List.filter_cons, if_neg hx]
        simp only [hx, if_false, Nat.add_zero]
        exact ih m r hp hpred

theorem get?_lt_length {l : List α} {p : Nat} {r : α} (h : l.get? p = some r) :
    p < l.length := by
  rcases List.get?_eq_some.mp h with ⟨hlt, -⟩
  exact hlt

theorem chainedIn_map (near : α → α → Bool) (nearB : β → β → Bool)
    (f : α → β) (l : List α) (hcomm : ∀ x y, near x y = nearB (f x) (f y))
    {a b : α} (h : chainedIn near l a b) :
    chainedIn nearB (l.map f) (f a) (f b) := by
  induction h with
  | refl => exact Relation.ReflTransGen.refl
  | tail hxy hstep ih =>
    rcases hstep with ⟨hx, hy, hnear⟩
    refine Relation.ReflTransGen.tail ih ?_
    refine ⟨List.mem_map.mpr ⟨_, hx, rfl⟩, List.mem_map.mpr ⟨_, hy, rfl⟩, ?_⟩
    rw [← hcomm]
    exact hnear

theorem temporalDBSCAN_row (eDays : ℚ) (F : Frame) (p : Nat) (r : Rec)
    (hp : F.rows.get? p = some r) :
    (temporalDBSCAN eDays F).rows.get? p = some (setTemporal r (Int.ofNat
      ((temporalLabelsOf eDays (F.rows.filter
        (fun q => q.spatial_cluster_id == r.spatial_cluster_id))).getD
          ((F.rows.take p).countP
            (fun q => q.spatial_cluster_id == r.spatial_cluster_id)) 0))) := by
  show ((F.rows.enum.map _).get? p) = _
  rw [List.get?_map, List.get?_enum, hp]
  rfl

/-- C7 counterexample: after `TemporalDBSCAN.transform`, two rows in
different spatial clusters both carry `temporal_cluster_id = 0` — sklearn
restarts labels at 0 inside every spatial group, so the label value alone is
shared across spatial groups and the claim as stated is false. -/
theorem C7_counterexample :
    ∃ a ∈ (temporalDBSCAN 1 frameC7).rows, ∃ b ∈ (temporalDBSCAN 1 frameC7).rows,
      a.temporal_cluster_id = b.temporal_cluster_id ∧
        ¬ a.spatial_cluster_id = b.spatial_cluster_id := by decide

/-- C7 amended: `TemporalDBSCAN.transform` computes temporal labels
independently within each spatial group, so a temporal group is identified by
the `(spatial_cluster_id, temporal_cluster_id)` pair, not by the temporal
value alone: two output rows that share BOTH ids are temporally
chain-connected (day offsets within `e_days` links) inside their spatial
group, while rows of different spatial groups may share a
`temporal_cluster_id` value. -/
theorem C7_temporal_group_within_spatial_group (eDays : ℚ) (F : Frame)
    (p q : Nat) (a b : Rec)
    (hp : (temporalDBSCAN eDays F).rows.get? p = some a)
    (hq : (temporalDBSCAN eDays F).rows.get? q = some b)
    (hsp : a.spatial_cluster_id = b.spatial_cluster_id)
    (htm : a.temporal_cluster_id = b.temporal_cluster_id) :
    chainedIn (nearDays eDays)
      ((F.rows.filter
        (fun r => r.spatial_cluster_id == a.spatial_cluster_id)).map
          (fun r => r.startdate.days))
      a.startdate.days b.startdate.days := by
  cases hra : F.rows.get? p with
  | none =>
    rw [show (temporalDBSCAN eDays F).rows = F.rows.enum.map _ from rfl,
      List.get?_map, List.get?_enum, hra] at hp
    cases hp
  | some ra =>
    cases hrb : F.rows.get? q with
    | none =>
      rw [show (temporalDBSCAN eDays F).rows = F.rows.enum.map _ from rfl,
        List.get?_map, List.get?_enum, hrb] at hq
      cases hq
    | some rb =>
      have hpa := temporalDBSCAN_row eDays F p ra hra
      have hqb := temporalDBSCAN_row eDays F q rb hrb
      rw [hp] at hpa
      rw [hq] at hqb
      have ha : a = setTemporal ra _ := Option.some.inj hpa
      have hb : b = setTemporal rb _ := Option.some.inj hqb
      have haSp : a.spatial_cluster_id = ra.spatial_cluster_id := by
        rw [ha, setTemporal_spatial]
      have haSd : a.startdate = ra.startdate := by
        rw [ha, setTemporal_startdate]
      have hbSp : b.spatial_cluster_id = rb.spatial_cluster_id := by
        rw [hb, setTemporal_spatial]
      have hbSd : b.startdate = rb.startdate := by
        rw [hb, setTemporal_startdate]
      have hkey : rb.spatial_cluster_id = ra.spatial_cluster_id := by
        rw [← hbSp, ← hsp, haSp]
      have hpa2 : (fun r : Rec =>
          r.spatial_cluster_id == ra.spatial_cluster_id) ra = true := by
        simp
      have hpb2 : (fun r : Rec =>
          r.spatial_cluster_id == ra.spatial_cluster_id) rb = true := by
        simp [hkey]
      have hrank := filter_get?_rank
        (fun r => r.spatial_cluster_id == ra.spatial_cluster_id)
        F.rows p ra hra hpa2
      have hrank2 := filter_get?_rank
        (fun r => r.spatial_cluster_id == ra.spatial_cluster_id)
        F.rows q rb hrb hpb2
      have hlenA := get?_lt_length hrank
      have hlenB := get?_lt_length hrank2
      have htmv : a.temporal_cluster_id = Int.ofNat
          ((temporalLabelsOf eDays (F.rows.filter (fun r =>
            r.spatial_cluster_id == ra.spatial_cluster_id))).getD
              ((F.rows.take p).countP (fun r =>
                r.spatial_cluster_id == ra.spatial_cluster_id)) 0) := by
        rw [ha, setTemporal_temporal]
      have htmv2 : b.temporal_cluster_id = Int.ofNat
          ((temporalLabelsOf eDays (F.rows.filter (fun r =>
            r.spatial_cluster_id == ra.spatial_cluster_id))).getD
              ((F.rows.take q).countP (fun r =>
                r.spatial_cluster_id == ra.spatial_cluster_id)) 0) := by
        rw [hb, setTemporal_temporal, hkey]
      have hlabelEq : labelAt (adjOf (temporalNearRec eDays)
          (F.rows.filter (fun r =>
            r.spatial_cluster_id == ra.spatial_cluster_id)))
          (F.rows.filter (fun r =>
            r.spatial_cluster_id == ra.spatial_cluster_id)).length
          ((F.rows.take p).countP (fun r =>
            r.spatial_cluster_id == ra.spatial_cluster_id)) =
          labelAt (adjOf (temporalNearRec eDays)
          (F.rows.filter (fun r =>
            r.spatial_cluster_id == ra.spatial_cluster_id)))
          (F.rows.filter (fun r =>
            r.spatial_cluster_id == ra.spatial_cluster_id)).length
          ((F.rows.take q).countP (fun r =>
            r.spatial_cluster_id == ra.spatial_cluster_id)) := by
        have hh := htm
        rw [htmv, htmv2, List.getD_eq_get?, List.getD_eq_get?,
          temporalLabelsOf, dbscanLabels_get? _ _ hlenA,
          dbscanLabels_get? _ _ hlenB] at hh
        simp only [Option.getD_some] at hh
        exact Int.ofNat.inj hh
      have hadjSym := adjOf_symm (temporalNearRec eDays)
        (F.rows.filter (fun r =>
          r.spatial_cluster_id == ra.spatial_cluster_id))
        (temporalNearRec_symm eDays)
      have hrep := repIdx_eq_of_labelAt_eq _ _ hadjSym hlenA hlenB hlabelEq
      have hconn := conn_of_repIdx_eq _ _ hadjSym hlenA hlenB hrep
      have hchain := chained_of_conn (temporalNearRec eDays)
        (F.rows.filter (fun r =>
          r.spatial_cluster_id == ra.spatial_cluster_id))
        hconn hrank hrank2
      have hmap := chainedIn_map (temporalNearRec eDays) (nearDays eDays)
        (fun r => r.startdate.days)
        (F.rows.filter (fun r =>
          r.spatial_cluster_id == ra.spatial_cluster_id))
        (fun x y => rfl) hchain
      rw [haSp, haSd, hbSd]
      exact hmap

theorem C7_temporal_group_witness :
    ((temporalDBSCAN 1 frameC7).rows.get? 0 = some
      ⟨1, 0, 0, ⟨0, 2020⟩, 0, 0, 0⟩) ∧
    chainedIn (nearDays 1)
      ((frameC7.rows.filter
        (fun r => r.spatial_cluster_id == (0 : Int))).map
          (fun r => r.startdate.days)) 0 0 := by
  refine ⟨by decide, ?_⟩
  have h := C7_temporal_group_within_spatial_group 1 frameC7 0 0
    ⟨1, 0, 0, ⟨0, 2020⟩, 0, 0, 0⟩ ⟨1, 0, 0, ⟨0, 2020⟩, 0, 0, 0⟩
    (by decide) (by decide) rfl rfl
  exact h

/-- C9 counterexample: `SpatialDBSCAN.transform` is not total on non-numeric
coordinates — the coercion turns them into missing values, and the clustering
call then rejects the input (sklearn's `DBSCAN.fit` refuses arrays containing
NaN), so the transform raises instead of returning. -/
theorem C9_counterexample :
    spatialDBSCAN (fun _ _ => true) scenarioC9 = Except.error () := rfl

/-- C9 amended: the coercion does map every non-numeric or null coordinate
cell to missing before the radian conversion, so no type error occurs at
conversion; but the density-clustering call rejects missing coordinates, so
the transform succeeds exactly on inputs whose coordinates are all
numeric-coercible — and on those, every output row carries a non-negative
`spatial_cluster_id` (with `min_samples=1` the noise label -1 is never
assigned). -/
theorem C9_coercion_and_nonnegative_labels (nearS : ℚ × ℚ → ℚ × ℚ → Bool)
    (X : List SRec) :
    (∀ s, toNumeric (Cell.txt s) = none) ∧ toNumeric Cell.null = none ∧
    ((spatialDBSCAN nearS X).isOk = true ↔
      ∀ r ∈ X, (toNumeric r.latitude1).isSome ∧
        (toNumeric r.longitude1).isSome) ∧
    (∀ F, spatialDBSCAN nearS X = .ok F →
      ∀ r ∈ F.rows, 0 ≤ r.spatial_cluster_id) := by
  refine ⟨fun s => rfl, rfl, ?_, ?_⟩
  · unfold spatialDBSCAN
    split
    · rename_i hany
      simp only [Except.isOk]
      constructor
      · intro h
        cases h
      · intro hall
        rcases List.any_eq_true.mp hany with ⟨r, hr, hbad⟩
        rcases hall r hr with ⟨h1, h2⟩
        rw [Bool.or_eq_true] at hbad
        rcases hbad with hbad | hbad
        · rw [Option.isNone_iff_eq_none] at hbad
          rw [hbad] at h1
          cases h1
        · rw [Option.isNone_iff_eq_none] at hbad
          rw [hbad] at h2
          cases h2
    · rename_i hany
      simp only [Except.isOk]
      constructor
      · intro _ r hr
        by_contra hbad
        refine absurd (List.any_eq_true.mpr ⟨r, hr, ?_⟩) hany
        rw [Bool.or_eq_true]
        rcases Decidable.not_and_iff_or_not.mp hbad with h | h
        · exact Or.inl (by rwa [Option.isNone_iff_eq_none,
            ← Option.not_isSome_iff_eq_none])
        · exact Or.inr (by rwa [Option.isNone_iff_eq_none,
            ← Option.not_isSome_iff_eq_none])
      · intro _
        rfl
  · intro F hF r hr
    unfold spatialDBSCAN at hF
    split at hF
    · cases hF
    · cases hF
      rcases List.mem_map.mp hr with ⟨p, hp, hpr⟩
      rw [← hpr]
      exact Int.ofNat_nonneg _

theorem C9_coercion_witness :
    (spatialDBSCAN (fun _ _ => true)
      [⟨1, Cell.num 0, Cell.num 0, ⟨0, 2020⟩⟩]).isOk = true :=
  (C9_coercion_and_nonnegative_labels (fun _ _ => true)
    [⟨1, Cell.num 0, Cell.num 0, ⟨0, 2020⟩⟩]).2.2.1.mpr (by decide)

theorem map_enum_map (f : Nat × α → β) (core : β → γ) (core2 : α → γ)
    (hf : ∀ p : Nat × α, core (f p) = core2 p.2) (l : List α) :
    ((l.enum.map f).map core) = l.map core2 := by
  rw [List.map_map]
  have h1 : (core ∘ f) = core2 ∘ Prod.snd := by
    funext p
    exact hf p
  rw [h1, ← List.map_map, List.enum_map_snd]

theorem map_core_updateAtPositions (setF : Rec → Int → Rec)
    (hset : ∀ r v, coreOf (setF r v) = coreOf r) (ps : List Nat) (v : Int)
    (rows : List Rec) :
    (updateAtPositions setF ps v rows).map coreOf = rows.map coreOf := by
  unfold updateAtPositions
  refine map_enum_map _ coreOf coreOf ?_ rows
  intro p
  by_cases h : p.1 ∈ ps <;> simp [h, hset]

theorem foldl_preserves (P : γ → Prop) (f : γ → κ → γ)
    (h : ∀ st k, P st → P (f st k)) :
    ∀ (ks : List κ) (st : γ), P st → P (ks.foldl f st) := by
  intro ks
  induction ks with
  | nil => intro st hst; exact hst
  | cons k ks ih =>
    intro st hst
    exact ih (f st k) (h st k hst)

theorem map_core_splitOneGroup (key : Rec → κ) [DecidableEq κ]
    (setF : Rec → Int → Rec) (hset : ∀ r v, coreOf (setF r v) = coreOf r)
    (near : Rec → Rec → Bool) (orig : List Rec) (st : List Rec × Int) (k : κ)
    (hst : st.1.map coreOf = orig.map coreOf) :
    (splitOneGroup key setF near orig st k).1.map coreOf = orig.map coreOf := by
  unfold splitOneGroup
  simp only []
  split
  · exact hst
  · split
    · exact hst
    · refine foldl_preserves (fun s : List Rec × Int =>
        s.1.map coreOf = orig.map coreOf) _ ?_ _ st hst
      intro s c hs
      split
      · exact hs
      · show (updateAtPositions setF _ _ s.1).map coreOf = orig.map coreOf
        rw [map_core_updateAtPositions setF hset]
        exact hs

theorem map_core_splitGroups (key : Rec → κ) [DecidableEq κ]
    (le : κ → κ → Bool) (getF : Rec → Int) (setF : Rec → Int → Rec)
    (hset : ∀ r v, coreOf (setF r v) = coreOf r) (near : Rec → Rec → Bool)
    (rows : List Rec) :
    (splitGroups key le getF setF near rows).map coreOf = rows.map coreOf := by
  unfold splitGroups
  exact foldl_preserves (fun s : List Rec × Int =>
    s.1.map coreOf = rows.map coreOf) _
    (fun s k hs => map_core_splitOneGroup key setF hset near rows s k hs) _ _ rfl

attribute [irreducible] dropDuplicatesBy

theorem map_core_temporalDBSCAN (eDays : ℚ) (F : Frame) :
    (temporalDBSCAN eDays F).rows.map coreOf = F.rows.map coreOf := by
  show ((F.rows.enum.map _).map coreOf) = _
  refine map_enum_map _ coreOf coreOf ?_ F.rows
  intro p
  rfl

theorem map_core_temporalRecompute (eDays : ℚ) (F : Frame) :
    (temporalRecompute eDays F).rows.map coreOf = F.rows.map coreOf :=
  map_core_temporalDBSCAN eDays F

theorem map_core_combineClusters (F : Frame) :
    (combineClusters F).rows.map coreOf = F.rows.map coreOf := by
  show ((F.rows.map _).map coreOf) = _
  rw [List.map_map]
  have h : (coreOf ∘ fun r : Rec => setSTC r (Int.ofNat
      ((dropDuplicatesBy (fun q => q) (F.rows.map (fun r =>
        (r.spatial_cluster_id, r.temporal_cluster_id)))).indexOf
          (r.spatial_cluster_id, r.temporal_cluster_id)))) = coreOf := by
    funext r
    rfl
  rw [h]

theorem map_core_spatialReconnectWT (nearS : ℚ × ℚ → ℚ × ℚ → Bool) (F : Frame) :
    (spatialReconnectWithinTemporal nearS F).rows.map coreOf =
      F.rows.map coreOf := by
  unfold spatialReconnectWithinTemporal
  exact map_core_splitGroups
    (fun r => (r.spatial_cluster_id, r.temporal_cluster_id)) pairLe
    (fun r => r.spatial_cluster_id) setSpatial (fun _ _ => rfl)
    (spatialNearRec nearS) F.rows

theorem map_core_spatialReconnectST (nearS : ℚ × ℚ → ℚ × ℚ → Bool) (F : Frame) :
    (spatialReconnectST nearS F).rows.map coreOf = F.rows.map coreOf := by
  unfold spatialReconnectST
  split
  · exact map_core_splitGroups (fun r => r.spatiotemporal_cluster_id) intLe
      (fun r => r.spatiotemporal_cluster_id) setSTC (fun _ _ => rfl)
      (spatialNearRec nearS) F.rows
  · rfl

theorem map_core_temporalReconnectST (eDays : ℚ) (F : Frame) :
    (temporalReconnectST eDays F).rows.map coreOf = F.rows.map coreOf := by
  unfold temporalReconnectST
  split
  · exact map_core_splitGroups (fun r => r.spatiotemporal_cluster_id) intLe
      (fun r => r.spatiotemporal_cluster_id) setSTC (fun _ _ => rfl)
      (temporalNearRec eDays) F.rows
  · rfl

theorem map_core_iterStep (nearS : ℚ × ℚ → ℚ × ℚ → Bool) (eDays : ℚ)
    (F : Frame) : (iterStep nearS eDays F).rows.map coreOf =
      F.rows.map coreOf := by
  unfold iterStep
  rw [map_core_temporalReconnectST, map_core_spatialReconnectST,
    map_core_combineClusters, map_core_temporalRecompute,
    map_core_spatialReconnectWT, map_core_temporalDBSCAN]

theorem iterLoop_ok_rows (nearS : ℚ × ℚ → ℚ × ℚ → Bool) (eDist eDays : ℚ) :
    ∀ (k : Nat) (F G : Frame), iterLoop nearS eDist eDays k F = .ok G →
      G.rows.map coreOf = F.rows.map coreOf := by
  intro k
  induction k with
  | zero =>
    intro F G h
    cases h
    rfl
  | succ m ih =>
    intro F G h
    unfold iterLoop at h
    cases hv : validate nearS eDist eDays (iterStep nearS eDays F) with
    | ok H =>
      simp only [hv] at h
      cases h
      exact map_core_iterStep nearS eDays F
    | error e' =>
      cases m with
      | zero =>
        simp [hv] at h
      | succ m' =>
        simp only [hv] at h
        rw [ih _ _ h]
        exact map_core_iterStep nearS eDays F

theorem iterLoop_ok_hasSTC (nearS : ℚ × ℚ → ℚ × ℚ → Bool) (eDist eDays : ℚ) :
    ∀ (k : Nat) (F G : Frame), iterLoop nearS eDist eDays (k + 1) F = .ok G →
      G.hasSTC = true := by
  intro k
  induction k with
  | zero =>
    intro F G h
    unfold iterLoop at h
    cases hv : validate nearS eDist eDays (iterStep nearS eDays F) with
    | ok H =>
      simp only [hv] at h
      cases h
      exact iterStep_hasSTC nearS eDays F
    | error e' =>
      simp [hv] at h
  | succ m ih =>
    intro F G h
    unfold iterLoop at h
    cases hv : validate nearS eDist eDays (iterStep nearS eDays F) with
    | ok H =>
      simp only [hv] at h
      cases h
      exact iterStep_hasSTC nearS eDays F
    | error e' =>
      simp only [hv] at h
      exact ih _ _ h

theorem spatialDBSCAN_rows_ids (nearS : ℚ × ℚ → ℚ × ℚ → Bool) (X : List SRec)
    (F : Frame) (h : spatialDBSCAN nearS X = .ok F) :
    F.rows.length = X.length ∧
      F.rows.map (fun r => r.collectingeventid) =
        X.map (fun s => s.collectingeventid) := by
  unfold spatialDBSCAN at h
  split at h
  · cases h
  · cases h
    constructor
    · rw [List.length_map, List.enum_length]
    · rw [List.map_map]
      show (X.enum.map ((fun s : SRec => s.collectingeventid) ∘ Prod.snd)) = _
      rw [← List.map_map, List.enum_map_snd]

theorem spatialDBSCAN_rows_core (nearS : ℚ × ℚ → ℚ × ℚ → Bool)
    (cs : List CleanRec) (F : Frame)
    (h : spatialDBSCAN nearS (cs.map toSRec) = .ok F) :
    F.rows.map coreOf = cs.map (fun c =>
      (c.collectingeventid, c.latitude1, c.longitude1, c.startdate)) := by
  unfold spatialDBSCAN at h
  split at h
  · cases h
  · cases h
    rw [List.map_map]
    show ((cs.map toSRec).enum.map ((fun s : SRec =>
      (s.collectingeventid, (toNumeric s.latitude1).getD 0,
        (toNumeric s.longitude1).getD 0, s.startdate)) ∘ Prod.snd)) = _
    rw [← List.map_map, List.enum_map_snd, List.map_map]
    show cs.map ((fun s : SRec =>
      (s.collectingeventid, (toNumeric s.latitude1).getD 0,
        (toNumeric s.longitude1).getD 0, s.startdate)) ∘ toSRec) = _
    refine List.map_congr_left ?_
    intro c hc
    rfl

/-- C5: every stage after the sanitizer preserves the row set — its length
and the identity (event id, coordinates, timestamp) of every row, in order:
SpatialDBSCAN, TemporalDBSCAN (and its recompute), the three splitter
variants, CombineClusters and the Validator never drop a row; and when the
full pipeline returns successfully, the output frame carries the
`spatiotemporal_cluster_id` column (every row's id is a total integer) and
its rows are exactly the sanitizer's output rows. -/
theorem C5_coverage_no_rows_dropped (nearS : ℚ × ℚ → ℚ × ℚ → Bool)
    (eDist eDays today : ℚ) (raw : List RawRec) (X : List SRec) (G : Frame) :
    (∀ F, spatialDBSCAN nearS X = .ok F → F.rows.length = X.length ∧
      F.rows.map (fun r => r.collectingeventid) =
        X.map (fun s => s.collectingeventid)) ∧
    (temporalDBSCAN eDays G).rows.map coreOf = G.rows.map coreOf ∧
    (temporalRecompute eDays G).rows.map coreOf = G.rows.map coreOf ∧
    (spatialReconnectWithinTemporal nearS G).rows.map coreOf =
      G.rows.map coreOf ∧
    (spatialReconnectST nearS G).rows.map coreOf = G.rows.map coreOf ∧
    (temporalReconnectST eDays G).rows.map coreOf = G.rows.map coreOf ∧
    (combineClusters G).rows.map coreOf = G.rows.map coreOf ∧
    (∀ H, validate nearS eDist eDays G = .ok H → H = G) ∧
    (∀ H, fullPipeline nearS eDist eDays today raw = .ok H →
      H.hasSTC = true ∧
        H.rows.map coreOf = (preprocess today raw).map (fun c =>
          (c.collectingeventid, c.latitude1, c.longitude1, c.startdate))) := by
  refine ⟨fun F h => spatialDBSCAN_rows_ids nearS X F h,
    map_core_temporalDBSCAN eDays G, map_core_temporalRecompute eDays G,
    map_core_spatialReconnectWT nearS G, map_core_spatialReconnectST nearS G,
    map_core_temporalReconnectST eDays G, map_core_combineClusters G,
    fun H h => validate_ok_eq nearS eDist eDays G H h, ?_⟩
  intro H h
  unfold fullPipeline at h
  cases hsd : spatialDBSCAN nearS ((preprocess today raw).map toSRec) with
  | error u =>
    simp only [hsd] at h
    cases h
  | ok F0 =>
    simp only [hsd] at h
    cases hloop : iterLoop nearS eDist eDays 5 F0 with
    | error e =>
      simp only [hloop] at h
      cases h
    | ok F1 =>
      simp only [hloop] at h
      cases hval : validate nearS eDist eDays F1 with
      | error e =>
        simp only [hval] at h
        cases h
      | ok F2 =>
        simp only [hval] at h
        cases h
        have h21 : H = F1 := validate_ok_eq nearS eDist eDays F1 H hval
        subst h21
        constructor
        · exact iterLoop_ok_hasSTC nearS eDist eDays 4 F0 H hloop
        · rw [iterLoop_ok_rows nearS eDist eDays 5 F0 H hloop]
          exact spatialDBSCAN_rows_core nearS (preprocess today raw) F0 hsd

theorem C8_missing_column_witness :
    (iterStep (fun _ _ => false) 1 ⟨[], false, false⟩).hasSTC = true ∧
      validate (fun _ _ => false) 1 1
        (iterStep (fun _ _ => false) 1 ⟨[], false, false⟩) ≠
          Except.error ValErr.missingSTC ∧
      (∀ k e, iterLoop (fun _ _ => false) 1 1 k ⟨[], false, false⟩ = .error e →
        ∃ sb tb, e = ValErr.disconnected 1 1 sb tb) :=
  C8_missing_column_error_never_retried (fun _ _ => false) 1 1 ⟨[], false, false⟩

set_option allowUnsafeReducibility true in
attribute [semireducible] dropDuplicatesBy

theorem chains_of_short (near : α → α → Bool) (l : List α) (hl : l.length ≤ 1) :
    ∀ a ∈ l, ∀ b ∈ l, chainedIn near l a b := by
  match l, hl with
  | [], _ =>
    intro a ha
    cases ha
  | [x], _ =>
    intro a ha b hb
    rw [List.mem_singleton.mp ha, List.mem_singleton.mp hb]
    exact Relation.ReflTransGen.refl

theorem dbscanLabels_two_disconnected (near : α → α → Bool) (a b : α)
    (hab : near a b = false) (hba : near b a = false) :
    dbscanLabels near [a, b] = [0, 1] := by
  have hadj01 : adjOf near [a, b] 0 1 = false := hab
  have hadj10 : adjOf near [a, b] 1 0 = false := hba
  have hg0 : grow (adjOf near [a, b]) 2 [0] = [0] := by
    unfold grow
    rw [show List.range 2 = [0, 1] from rfl]
    simp [List.filter_cons, hadj01]
  have hg1 : grow (adjOf near [a, b]) 2 [1] = [1] := by
    unfold grow
    rw [show List.range 2 = [0, 1] from rfl]
    simp [List.filter_cons, hadj10]
  have hc0 : compSet (adjOf near [a, b]) 2 0 = [0] := by
    show growN _ 2 2 [0] = [0]
    simp [growN, hg0]
  have hc1 : compSet (adjOf near [a, b]) 2 1 = [1] := by
    show growN _ 2 2 [1] = [1]
    simp [growN, hg1]
  have hr0 : repIdx (adjOf near [a, b]) 2 0 = 0 := by
    rw [repIdx, hc0]
    rfl
  have hr1 : repIdx (adjOf near [a, b]) 2 1 = 1 := by
    rw [repIdx, hc1]
    rfl
  show [labelAt (adjOf near [a, b]) 2 0, labelAt (adjOf near [a, b]) 2 1] = [0, 1]
  rw [labelAt, labelAt, hr0, hr1]
  rw [show List.range 0 = [] from rfl, show List.range 1 = [0] from rfl]
  simp [hr0]

theorem temporalNearRec_refl (eDays : ℚ) (heD : 0 ≤ eDays) (a : Rec) :
    temporalNearRec eDays a a = true := by
  rw [temporalNearRec, nearDays]
  simp only [sub_self, abs_zero, decide_eq_true_eq]
  exact heD

theorem groupCheck_none_iff (near : Rec → Rec → Bool) (F : Frame) (g : Int)
    (hsym : ∀ a b, near a b = near b a) (hrefl : ∀ a, near a a = true) :
    groupCheck near F g = none ↔
      ∀ a ∈ groupRows F g, ∀ b ∈ groupRows F g,
        chainedIn near (groupRows F g) a b := by
  unfold groupCheck
  simp only []
  by_cases hlen : (groupRows F g).length ≤ 1
  · rw [if_pos hlen]
    constructor
    · intro _
      exact chains_of_short near _ hlen
    · intro _
      rfl
  · rw [if_neg hlen]
    by_cases hm : 0 < labelsMax (dbscanLabels near (groupRows F g))
    · rw [if_pos hm]
      constructor
      · intro h
        cases h
      · intro hch
        exfalso
        have h0 := chained_single_component near (groupRows F g) hsym
          (fun a _ => hrefl a) hch
        omega
    · rw [if_neg hm]
      constructor
      · intro _
        exact single_component_chained near _ hsym (by omega)
      · intro _
        rfl

theorem validate_eq_of_hasSTC (nearS : ℚ × ℚ → ℚ × ℚ → Bool) (eDist eDays : ℚ)
    (F : Frame) (hstc : F.hasSTC = true) :
    validate nearS eDist eDays F =
      (if (((stcIds F).filterMap (groupCheck (spatialNearRec nearS) F)).isEmpty &&
            ((stcIds F).filterMap (groupCheck (temporalNearRec eDays) F)).isEmpty) = true
        then .ok F
        else .error (.disconnected eDist eDays
          ((stcIds F).filterMap (groupCheck (spatialNearRec nearS) F))
          ((stcIds F).filterMap (groupCheck (temporalNearRec eDays) F)))) := by
  unfold validate
  rw [hstc]
  rfl

theorem validate_error_iff_disconnected
    (nearS : ℚ × ℚ → ℚ × ℚ → Bool) (eDist eDays : ℚ) (F : Frame)
    (hstc : F.hasSTC = true)
    (hsymS : ∀ p q, nearS p q = nearS q p)
    (hreflS : ∀ p, nearS p p = true)
    (heD : 0 ≤ eDays) :
    (∃ e, validate nearS eDist eDays F = .error e) ↔
      ∃ g ∈ stcIds F,
        ¬ (∀ a ∈ groupRows F g, ∀ b ∈ groupRows F g,
            chainedIn (spatialNearRec nearS) (groupRows F g) a b) ∨
        ¬ (∀ a ∈ groupRows F g, ∀ b ∈ groupRows F g,
            chainedIn (temporalNearRec eDays) (groupRows F g) a b) := by
  have hsymSR : ∀ a b, spatialNearRec nearS a b = spatialNearRec nearS b a :=
    fun a b => hsymS _ _
  have hreflSR : ∀ a, spatialNearRec nearS a a = true := fun a => hreflS _
  have hsymTR : ∀ a b, temporalNearRec eDays a b = temporalNearRec eDays b a :=
    temporalNearRec_symm eDays
  have hreflTR : ∀ a, temporalNearRec eDays a a = true :=
    temporalNearRec_refl eDays heD
  rw [validate_eq_of_hasSTC nearS eDist eDays F hstc]
  by_cases hc : (((stcIds F).filterMap (groupCheck (spatialNearRec nearS) F)).isEmpty &&
      ((stcIds F).filterMap (groupCheck (temporalNearRec eDays) F)).isEmpty) = true
  · rw [if_pos hc]
    simp only [Bool.and_eq_true, List.isEmpty_iff, List.filterMap_eq_nil_iff] at hc
    constructor
    · rintro ⟨e, he⟩
      cases he
    · rintro ⟨g, hg, hbad⟩
      exfalso
      rcases hbad with hbad | hbad
      · exact hbad ((groupCheck_none_iff _ F g hsymSR hreflSR).mp (hc.1 g hg))
      · exact hbad ((groupCheck_none_iff _ F g hsymTR hreflTR).mp (hc.2 g hg))
  · rw [if_neg hc]
    constructor
    · intro _
      simp only [Bool.and_eq_true, List.isEmpty_iff, List.filterMap_eq_nil_iff,
        not_and_or, not_forall] at hc
      rcases hc with ⟨g, hg, hne⟩ | ⟨g, hg, hne⟩
      · refine ⟨g, hg, Or.inl ?_⟩
        intro hch
        exact hne ((groupCheck_none_iff _ F g hsymSR hreflSR).mpr hch)
      · refine ⟨g, hg, Or.inr ?_⟩
        intro hch
        exact hne ((groupCheck_none_iff _ F g hsymTR hreflTR).mpr hch)
    · intro _
      exact ⟨_, rfl⟩

set_option allowUnsafeReducibility true in
attribute [semireducible] Rat.sub

theorem validate_scenB (nearB : ℚ × ℚ → ℚ × ℚ → Bool)
    (hB : ∀ p q, nearB p q = true ↔ havNear 1 p q) :
    validate nearB 1 1 scenBFrame =
      .error (.disconnected 1 1 [(7, 2, 2)] []) := by
  have h01 : spatialNearRec nearB rB0 rB1 = false := by
    rw [← Bool.not_eq_true]
    show ¬ nearB (0, 0) (0, 2) = true
    rw [hB]
    exact not_havNear_scenB
  have h10 : spatialNearRec nearB rB1 rB0 = false := by
    rw [← Bool.not_eq_true]
    show ¬ nearB (0, 2) (0, 0) = true
    rw [hB]
    intro h
    exact not_havNear_scenB ((havNear_symm 1 _ _).mp h)
  have hids : stcIds scenBFrame = [7] := by decide
  have hgr : groupRows scenBFrame 7 = [rB0, rB1] := by decide
  have hlab := dbscanLabels_two_disconnected (spatialNearRec nearB) rB0 rB1 h01 h10
  have hsp : groupCheck (spatialNearRec nearB) scenBFrame 7 = some (7, 2, 2) := by
    unfold groupCheck
    simp only []
    rw [hgr, hlab]
    decide
  have htp : groupCheck (temporalNearRec 1) scenBFrame 7 = none := by decide
  rw [validate_eq_of_hasSTC nearB 1 1 scenBFrame rfl, hids]
  simp only [List.filterMap_cons, List.filterMap_nil, hsp, htp]
  rfl

/-- C3: with the spatiotemporal id column present, the validator raises an
error iff some spatiotemporal group fails to be chain-connected under the
spatial or the temporal ε-neighbourhood re-clustering (more than one
component); the rendered message of a disconnectivity error has one clause
per failing axis, each listing at most 10 offending group summaries
(group id, component count, group size); and on scenario B — records at
(0,0) and (0,2) degrees, same date, shared group id, e_dist = e_days = 1 —
it raises an error whose message mentions "spatially disconnected". -/
theorem C3_validator_error_iff_and_message (nearS : ℚ × ℚ → ℚ × ℚ → Bool)
    (eDist eDays : ℚ) (F : Frame) (hstc : F.hasSTC = true)
    (hsymS : ∀ p q, nearS p q = nearS q p) (hreflS : ∀ p, nearS p p = true)
    (heD : 0 ≤ eDays)
    (nearB : ℚ × ℚ → ℚ × ℚ → Bool)
    (hB : ∀ p q, nearB p q = true ↔ havNear 1 p q) :
    ((∃ e, validate nearS eDist eDays F = .error e) ↔
      ∃ g ∈ stcIds F,
        ¬ (∀ a ∈ groupRows F g, ∀ b ∈ groupRows F g,
            chainedIn (spatialNearRec nearS) (groupRows F g) a b) ∨
        ¬ (∀ a ∈ groupRows F g, ∀ b ∈ groupRows F g,
            chainedIn (temporalNearRec eDays) (groupRows F g) a b)) ∧
    (∀ d d' sb tb, renderValErr (ValErr.disconnected d d' sb tb) =
        String.intercalate "; "
          ((if sb.isEmpty then [] else [spatialClause d sb]) ++
            (if tb.isEmpty then [] else [temporalClause d' tb])) ∧
      ((sb.take 10).map exampleStr).length = min sb.length 10 ∧
      ((tb.take 10).map exampleStr).length = min tb.length 10) ∧
    (validate nearB 1 1 scenBFrame = .error (.disconnected 1 1 [(7, 2, 2)] []) ∧
      hasSubStr "spatially disconnected"
        (renderValErr (ValErr.disconnected 1 1 [(7, 2, 2)] [])) = true) := by
  refine ⟨validate_error_iff_disconnected nearS eDist eDays F hstc hsymS hreflS heD,
    ?_, validate_scenB nearB hB, by decide⟩
  intro d d' sb tb
  refine ⟨rfl, ?_, ?_⟩ <;>
    simp [List.length_map, List.length_take, Nat.min_comm]

theorem C3_validator_witness :
    validate (fun p q => @decide (havNear 1 p q) (Classical.propDecidable _)) 1 1
        scenBFrame = .error (.disconnected 1 1 [(7, 2, 2)] []) ∧
      hasSubStr "spatially disconnected"
        (renderValErr (ValErr.disconnected 1 1 [(7, 2, 2)] [])) = true :=
  (C3_validator_error_iff_and_message (fun _ _ => true) 1 1 ⟨[], false, true⟩ rfl
    (fun _ _ => rfl) (fun _ => rfl) (by decide)
    (fun p q => @decide (havNear 1 p q) (Classical.propDecidable _))
    (fun p q => @decide_eq_true_iff _ (Classical.propDecidable _))).2.2

theorem contains_iff_memL [BEq α] [LawfulBEq α] (l : List α) (a : α) :
    l.contains a = true ↔ a ∈ l := List.elem_iff

theorem updateAtPositions_get? (setF : Rec → Int → Rec) (ps : List Nat)
    (v : Int) (rows : List Rec) (i : Nat) :
    (updateAtPositions setF ps v rows).get? i =
      (rows.get? i).map (fun r => if ps.contains i then setF r v else r) := by
  rw [updateAtPositions, List.get?_map, List.get?_enum]
  cases rows.get? i <;> rfl

theorem dropDupsAux_keys (key : α → κ) [DecidableEq κ] (l : List α) :
    ∀ seen : List κ,
      ((dropDupsAux key seen l).map key).Nodup ∧
      ∀ x ∈ (dropDupsAux key seen l).map key, x ∉ seen := by
  induction l with
  | nil =>
    intro seen
    refine ⟨List.nodup_nil, ?_⟩
    intro x hx
    simp [dropDupsAux] at hx
  | cons a as ih =>
    intro seen
    rw [dropDupsAux]
    by_cases h : key a ∈ seen
    · rw [if_pos h]
      exact ih seen
    · rw [if_neg h]
      rcases ih (key a :: seen) with ⟨hnd, hns⟩
      refine ⟨?_, ?_⟩
      · rw [List.map_cons]
        refine List.nodup_cons.mpr ⟨?_, hnd⟩
        intro hmem
        exact hns _ hmem (List.mem_cons_self _ _)
      · intro x hx
        rw [List.map_cons, List.mem_cons] at hx
        rcases hx with rfl | hx
        · exact h
        · intro hxs
          exact hns x hx (List.mem_cons_of_mem _ hxs)

theorem dropDuplicatesBy_id_nodup [DecidableEq κ] (l : List κ) :
    (dropDuplicatesBy (fun x => x) l).Nodup := by
  have h := (dropDupsAux_keys (fun x : κ => x) l []).1
  rwa [List.map_id'] at h

theorem dropDupsAux_sublist (key : α → κ) [DecidableEq κ] (l : List α) :
    ∀ seen : List κ, List.Sublist (dropDupsAux key seen l) l := by
  induction l with
  | nil => intro seen; rw [dropDupsAux]
  | cons a as ih =>
    intro seen
    rw [dropDupsAux]
    by_cases h : key a ∈ seen
    · rw [if_pos h]
      exact (ih seen).cons a
    · rw [if_neg h]
      exact (ih (key a :: seen)).cons₂ a

theorem mem_dropDupsAux_id [DecidableEq κ] (l : List κ) :
    ∀ (seen : List κ) (x : κ), x ∈ l → x ∉ seen →
      x ∈ dropDupsAux (fun y => y) seen l := by
  induction l with
  | nil => intro seen x hx; cases hx
  | cons a as ih =>
    intro seen x hx hxs
    rw [dropDupsAux]
    rcases List.mem_cons.mp hx with rfl | hx
    · rw [if_neg hxs]
      exact List.mem_cons_self _ _
    · by_cases h : a ∈ seen
      · rw [if_pos h]
        exact ih seen x hx hxs
      · rw [if_neg h]
        by_cases hax : x = a
        · subst hax
          exact List.mem_cons_self _ _
        · refine List.mem_cons_of_mem _ (ih (a :: seen) x hx ?_)
          intro hmem
          rcases List.mem_cons.mp hmem with h1 | h1
          · exact hax h1
          · exact hxs h1

theorem mem_dropDuplicatesBy_id [DecidableEq κ] (l : List κ) (x : κ) :
    x ∈ dropDuplicatesBy (fun y => y) l ↔ x ∈ l := by
  constructor
  · intro h
    exact (dropDupsAux_sublist (fun y => y) l []).mem h
  · intro h
    exact mem_dropDupsAux_id l [] x h (by intro hx; cases hx)

theorem insertLe_perm (le : κ → κ → Bool) (x : κ) (l : List κ) :
    List.Perm (insertLe le x l) (x :: l) := by
  induction l with
  | nil => rw [insertLe]
  | cons y ys ih =>
    rw [insertLe]
    by_cases h : le x y = true
    · rw [if_pos h]
    · rw [if_neg h]
      exact (List.Perm.cons y ih).trans (List.Perm.swap x y ys)

theorem sortLe_perm (le : κ → κ → Bool) (l : List κ) :
    List.Perm (sortLe le l) l := by
  induction l with
  | nil => rw [sortLe]
  | cons x xs ih =>
    rw [sortLe]
    exact (insertLe_perm le x (sortLe le xs)).trans (List.Perm.cons x ih)

theorem insertLe_pairwise (le : κ → κ → Bool)
    (htot : ∀ a b, le a b = false → le b a = true)
    (htrans : ∀ a b c, le a b = true → le b c = true → le a c = true)
    (x : κ) (l : List κ) (hl : l.Pairwise (fun a b => le a b = true)) :
    (insertLe le x l).Pairwise (fun a b => le a b = true) := by
  induction l with
  | nil =>
    rw [insertLe]
    simp
  | cons y ys ih =>
    rw [insertLe]
    rcases List.pairwise_cons.mp hl with ⟨hy, hys⟩
    by_cases h : le x y = true
    · rw [if_pos h]
      refine List.pairwise_cons.mpr ⟨?_, hl⟩
      intro b hb
      rcases List.mem_cons.mp hb with rfl | hb
      · exact h
      · exact htrans x y b h (hy b hb)
    · rw [if_neg h]
      refine List.pairwise_cons.mpr ⟨?_, ih hys⟩
      intro b hb
      have hb' := (insertLe_perm le x ys).mem_iff.mp hb
      rcases List.mem_cons.mp hb' with rfl | hb'
      · exact htot b y (Bool.eq_false_iff.mpr h)
      · exact hy b hb'

theorem sortLe_pairwise (le : κ → κ → Bool)
    (htot : ∀ a b, le a b = false → le b a = true)
    (htrans : ∀ a b c, le a b = true → le b c = true → le a c = true)
    (l : List κ) :
    (sortLe le l).Pairwise (fun a b => le a b = true) := by
  induction l with
  | nil => rw [sortLe]; exact List.Pairwise.nil
  | cons x xs ih =>
    rw [sortLe]
    exact insertLe_pairwise le htot htrans x _ ih

theorem sortedUnique_nodup (ls : List Nat) : (sortedUnique ls).Nodup :=
  dropDuplicatesBy_id_nodup _

theorem mem_sortedUnique (ls : List Nat) (x : Nat) :
    x ∈ sortedUnique ls ↔ x ∈ ls := by
  rw [sortedUnique, mem_dropDuplicatesBy_id]
  exact (sortLe_perm _ ls).mem_iff

theorem sortedUnique_pairwise (ls : List Nat) :
    (sortedUnique ls).Pairwise (fun a b => decide (a ≤ b) = true) := by
  rw [sortedUnique, dropDuplicatesBy]
  refine List.Pairwise.sublist (dropDupsAux_sublist _ _ []) ?_
  refine sortLe_pairwise _ ?_ ?_ ls
  · intro a b h
    simp only [decide_eq_false_iff_not] at h
    simpa using Nat.le_of_not_le h
  · intro a b c h1 h2
    simp only [decide_eq_true_eq] at h1 h2 ⊢
    omega

theorem sortedUnique_headD_eq_zero (ls : List Nat) (h0 : 0 ∈ ls) :
    (sortedUnique ls).headD 0 = 0 := by
  have hmem : 0 ∈ sortedUnique ls := (mem_sortedUnique ls 0).mpr h0
  have hp := sortedUnique_pairwise ls
  cases h : sortedUnique ls with
  | nil => rw [h] at hmem; cases hmem
  | cons b rest =>
    rw [h] at hmem hp
    show b = 0
    rcases List.mem_cons.mp hmem with h1 | h1
    · exact h1.symm
    · have hb := (List.pairwise_cons.mp hp).1 0 h1
      simp only [decide_eq_true_eq] at hb
      omega

theorem mem_groupPositions (key : Rec → κ) [DecidableEq κ] (rows : List Rec)
    (k : κ) (i : Nat) :
    i ∈ groupPositions key rows k ↔ ∃ r, rows.get? i = some r ∧ key r = k := by
  rw [groupPositions]
  constructor
  · intro h
    rcases List.mem_map.mp h with ⟨⟨j, r⟩, hp, rfl⟩
    rcases List.mem_filter.mp hp with ⟨hpe, hpk⟩
    have hget := List.mem_enum_iff_get?.mp hpe
    exact ⟨r, hget, of_decide_eq_true hpk⟩
  · rintro ⟨r, hget, hkey⟩
    refine List.mem_map.mpr ⟨(i, r), ?_, rfl⟩
    refine List.mem_filter.mpr ⟨List.mem_enum_iff_get?.mpr hget, ?_⟩
    exact decide_eq_true hkey

theorem groupPositions_lt (key : Rec → κ) [DecidableEq κ] (rows : List Rec)
    (k : κ) : ∀ i ∈ groupPositions key rows k, i < rows.length := by
  intro i hi
  rcases (mem_groupPositions key rows k i).mp hi with ⟨r, hget, -⟩
  exact (List.get?_eq_some.mp hget).1

theorem groupPositions_nodup (key : Rec → κ) [DecidableEq κ] (rows : List Rec)
    (k : κ) : (groupPositions key rows k).Nodup := by
  rw [groupPositions]
  refine List.Nodup.sublist ?_ (List.nodup_enum_map_fst rows)
  exact List.Sublist.map Prod.fst (List.filter_sublist _)

theorem filterMap_get?_length (rows : List Rec) :
    ∀ idxs : List Nat, (∀ i ∈ idxs, i < rows.length) →
      (idxs.filterMap rows.get?).length = idxs.length := by
  intro idxs
  induction idxs with
  | nil => intro _; rfl
  | cons i is ih =>
    intro h
    rw [List.filterMap_cons]
    have hi : i < rows.length := h i (List.mem_cons_self _ _)
    rw [List.get?_eq_get hi]
    simp only [List.length_cons]
    rw [ih (fun j hj => h j (List.mem_cons_of_mem _ hj))]

theorem labelAt_zero (adj : Nat → Nat → Bool) (n : Nat) : labelAt adj n 0 = 0 := by
  rw [labelAt]
  have h : repIdx adj n 0 = 0 := Nat.le_zero.mp (repIdx_le_self adj n 0)
  rw [h]
  rfl

theorem dbscanLabels_zero_mem (near : α → α → Bool) (l : List α)
    (h : 0 < l.length) : (0 : Nat) ∈ dbscanLabels near l := by
  refine List.mem_iff_get?.mpr ⟨0, ?_⟩
  rw [dbscanLabels_get? near l h, labelAt_zero]

theorem splitFold_snd (setF : Rec → Int → Rec) (psOf : Nat → List Nat)
    (b : Nat) (ds : List Nat) :
    ∀ (cur : List Rec) (n : Int), (∀ c ∈ ds, (c == b) = false) →
      (ds.foldl (fun st2 c => if c == b then st2
        else (updateAtPositions setF (psOf c) st2.2 st2.1, st2.2 + 1))
          (cur, n)).2 = n + ds.length := by
  induction ds with
  | nil => intro cur n _; simp
  | cons c cs ih =>
    intro cur n hb
    rw [List.foldl_cons, if_neg (by rw [hb c (List.mem_cons_self _ _)]; intro h; cases h)]
    rw [ih _ (n + 1) (fun c' hc' => hb c' (List.mem_cons_of_mem _ hc'))]
    push_cast [List.length_cons]
    ring

theorem splitFold_get? (setF : Rec → Int → Rec) (psOf : Nat → List Nat)
    (b : Nat) (ds : List Nat) :
    ∀ (cur : List Rec) (n : Int) (i : Nat), (∀ c ∈ ds, (c == b) = false) →
      ds.Nodup →
      (∀ c ∈ ds, ∀ c' ∈ ds, i ∈ psOf c → i ∈ psOf c' → c = c') →
      (((∀ c ∈ ds, i ∉ psOf c) →
        (ds.foldl (fun st2 c => if c == b then st2
          else (updateAtPositions setF (psOf c) st2.2 st2.1, st2.2 + 1))
            (cur, n)).1.get? i = cur.get? i) ∧
       (∀ t c, ds.get? t = some c → i ∈ psOf c →
        (ds.foldl (fun st2 c => if c == b then st2
          else (updateAtPositions setF (psOf c) st2.2 st2.1, st2.2 + 1))
            (cur, n)).1.get? i =
          (cur.get? i).map (fun r => setF r (n + t)))) := by
  induction ds with
  | nil =>
    intro cur n i _ _ _
    refine ⟨fun _ => rfl, ?_⟩
    intro t c hc
    simp at hc
  | cons c cs ih =>
    intro cur n i hb hnd hdisj
    have hbc : ¬((c == b) = true) := by
      rw [hb c (List.mem_cons_self _ _)]
      intro h
      cases h
    have hbcs : ∀ c' ∈ cs, (c' == b) = false :=
      fun c' hc' => hb c' (List.mem_cons_of_mem _ hc')
    have hndcs : cs.Nodup := (List.nodup_cons.mp hnd).2
    have hcnotin : c ∉ cs := (List.nodup_cons.mp hnd).1
    have hdisjcs : ∀ c1 ∈ cs, ∀ c2 ∈ cs, i ∈ psOf c1 → i ∈ psOf c2 → c1 = c2 :=
      fun c1 h1 c2 h2 => hdisj c1 (List.mem_cons_of_mem _ h1) c2
        (List.mem_cons_of_mem _ h2)
    constructor
    · intro hnotin
      rw [List.foldl_cons, if_neg hbc]
      have h1 := (ih (updateAtPositions setF (psOf c) n cur) (n + 1) i hbcs
        hndcs hdisjcs).1 (fun c' hc' => hnotin c' (List.mem_cons_of_mem _ hc'))
      rw [h1, updateAtPositions_get?]
      have hic : (psOf c).contains i = false := by
        rw [← Bool.not_eq_true]
        intro hcon
        exact hnotin c (List.mem_cons_self _ _) ((contains_iff_memL _ _).mp hcon)
      rw [hic]
      cases cur.get? i <;> rfl
    · intro t c2 hget hin
      rw [List.foldl_cons, if_neg hbc]
      cases t with
      | zero =>
        rw [List.get?] at hget
        cases hget
        have huntouched : ∀ c' ∈ cs, i ∉ psOf c' := by
          intro c' hc' hin'
          have := hdisj c (List.mem_cons_self _ _) c'
            (List.mem_cons_of_mem _ hc') hin hin'
          rw [this] at hcnotin
          exact hcnotin hc'
        have h1 := (ih (updateAtPositions setF (psOf c) n cur) (n + 1) i hbcs
          hndcs hdisjcs).1 huntouched
        rw [h1, updateAtPositions_get?]
        have hic : (psOf c).contains i = true := (contains_iff_memL _ _).mpr hin
        rw [hic]
        cases cur.get? i with
        | none => rfl
        | some r =>
          simp only [Option.map_some, if_pos rfl, Nat.cast_zero, add_zero]
          rfl
      | succ t' =>
        have hget' : cs.get? t' = some c2 := hget
        have hc2cs : c2 ∈ cs := List.get?_mem hget'
        have hinotc : i ∉ psOf c := by
          intro hin'
          have := hdisj c (List.mem_cons_self _ _) c2
            (List.mem_cons_of_mem _ hc2cs) hin' hin
          rw [this] at hcnotin
          exact hcnotin hc2cs
        have h2 := (ih (updateAtPositions setF (psOf c) n cur) (n + 1) i hbcs
          hndcs hdisjcs).2 t' c2 hget' hin
        rw [h2, updateAtPositions_get?]
        have hic : (psOf c).contains i = false := by
          rw [← Bool.not_eq_true]
          intro hcon
          exact hinotc ((contains_iff_memL _ _).mp hcon)
        rw [hic]
        cases cur.get? i with
        | none => rfl
        | some r =>
          show some (setF r (n + 1 + (t' : Int))) =
            some (setF r (n + ((t' + 1 : Nat) : Int)))
          congr 2
          push_cast
          ring

theorem mem_splitPs (idxs ls : List Nat) (c i : Nat) :
    (i ∈ (idxs.zip ls).filterMap
        (fun q => if q.2 == c then some q.1 else none)) ↔
      ∃ q ∈ idxs.zip ls, q.1 = i ∧ q.2 = c := by
  rw [List.mem_filterMap]
  constructor
  · rintro ⟨q, hq, hf⟩
    by_cases h : (q.2 == c) = true
    · rw [if_pos h] at hf
      cases hf
      exact ⟨q, hq, rfl, beq_iff_eq.mp h⟩
    · rw [if_neg h] at hf
      cases hf
  · rintro ⟨q, hq, h1, h2⟩
    exact ⟨q, hq, by simp [h1, h2]⟩

theorem mem_zip_get? (idxs ls : List Nat) (q : Nat × Nat)
    (hq : q ∈ idxs.zip ls) :
    ∃ t, idxs.get? t = some q.1 ∧ ls.get? t = some q.2 := by
  rcases List.mem_iff_get?.mp hq with ⟨t, ht⟩
  rw [List.get?_eq_getElem?] at ht
  rcases List.getElem?_zip_eq_some.mp ht with ⟨h1, h2⟩
  refine ⟨t, ?_, ?_⟩
  · rw [List.get?_eq_getElem?]
    exact h1
  · rw [List.get?_eq_getElem?]
    exact h2

theorem zip_get?_mem (idxs ls : List Nat) (t i c : Nat)
    (h1 : idxs.get? t = some i) (h2 : ls.get? t = some c) :
    (i, c) ∈ idxs.zip ls := by
  refine List.mem_iff_get?.mpr ⟨t, ?_⟩
  rw [List.get?_eq_getElem?]
  refine List.getElem?_zip_eq_some.mpr ⟨?_, ?_⟩
  · rw [← List.get?_eq_getElem?]
    exact h1
  · rw [← List.get?_eq_getElem?]
    exact h2

theorem splitPs_disjoint (idxs ls : List Nat) (hnd : idxs.Nodup)
    (i c1 c2 : Nat)
    (h1 : i ∈ (idxs.zip ls).filterMap
      (fun q => if q.2 == c1 then some q.1 else none))
    (h2 : i ∈ (idxs.zip ls).filterMap
      (fun q => if q.2 == c2 then some q.1 else none)) : c1 = c2 := by
  rcases (mem_splitPs idxs ls c1 i).mp h1 with ⟨q1, hq1, hi1, hc1⟩
  rcases (mem_splitPs idxs ls c2 i).mp h2 with ⟨q2, hq2, hi2, hc2⟩
  rcases mem_zip_get? idxs ls q1 hq1 with ⟨t1, ht1, hl1⟩
  rcases mem_zip_get? idxs ls q2 hq2 with ⟨t2, ht2, hl2⟩
  rw [hi1] at ht1
  rw [hi2] at ht2
  have htlt : t1 < idxs.length := (List.get?_eq_some.mp ht1).1
  have hteq : t1 = t2 := List.get?_inj htlt hnd (ht1.trans ht2.symm)
  rw [hteq] at hl1
  rw [hl1] at hl2
  injection hl2 with h
  rw [← hc1, ← hc2, h]

theorem splitOneGroup_skip_short (key : Rec → κ) [DecidableEq κ]
    (setF : Rec → Int → Rec) (near : Rec → Rec → Bool) (orig : List Rec)
    (st : List Rec × Int) (k : κ)
    (h : (groupPositions key orig k).length ≤ 1) :
    splitOneGroup key setF near orig st k = st := by
  rw [splitOneGroup]
  simp only []
  rw [if_pos h]

theorem splitOneGroup_skip_nil (key : Rec → κ) [DecidableEq κ]
    (setF : Rec → Int → Rec) (near : Rec → Rec → Bool) (orig : List Rec)
    (st : List Rec × Int) (k : κ)
    (h2 : ¬ (groupPositions key orig k).length ≤ 1)
    (huniq : sortedUnique (dbscanLabels near
      ((groupPositions key orig k).filterMap orig.get?)) = []) :
    splitOneGroup key setF near orig st k = st := by
  rw [splitOneGroup]
  simp only []
  rw [if_neg h2, huniq]
  rfl

theorem splitOneGroup_skip_single (key : Rec → κ) [DecidableEq κ]
    (setF : Rec → Int → Rec) (near : Rec → Rec → Bool) (orig : List Rec)
    (st : List Rec × Int) (k : κ) (b : Nat)
    (h2 : ¬ (groupPositions key orig k).length ≤ 1)
    (huniq : sortedUnique (dbscanLabels near
      ((groupPositions key orig k).filterMap orig.get?)) = [b]) :
    splitOneGroup key setF near orig st k = st := by
  rw [splitOneGroup]
  simp only []
  rw [if_neg h2, huniq]
  rw [if_pos (by simp)]

theorem splitOneGroup_eq (key : Rec → κ) [DecidableEq κ]
    (setF : Rec → Int → Rec) (near : Rec → Rec → Bool) (orig : List Rec)
    (st : List Rec × Int) (k : κ) (b : Nat) (rest : List Nat)
    (h2 : ¬ (groupPositions key orig k).length ≤ 1)
    (huniq : sortedUnique (dbscanLabels near
      ((groupPositions key orig k).filterMap orig.get?)) = b :: rest)
    (hrest : rest ≠ []) :
    splitOneGroup key setF near orig st k =
      rest.foldl (fun st2 c => if c == b then st2
        else (updateAtPositions setF
          (((groupPositions key orig k).zip (dbscanLabels near
            ((groupPositions key orig k).filterMap orig.get?))).filterMap
            (fun q => if q.2 == c then some q.1 else none)) st2.2 st2.1,
          st2.2 + 1)) st := by
  rw [splitOneGroup]
  simp only []
  rw [if_neg h2, huniq]
  rw [if_neg (by
    simp only [List.length_cons, beq_iff_eq]
    intro h
    exact hrest (List.length_eq_zero.mp (by omega)))]
  rw [List.foldl_cons, if_pos (by simp)]
  rfl

theorem splitOneGroup_untouched (key : Rec → κ) [DecidableEq κ]
    (setF : Rec → Int → Rec) (near : Rec → Rec → Bool) (orig : List Rec)
    (st : List Rec × Int) (k : κ) (i : Nat)
    (hi : i ∉ groupPositions key orig k) :
    (splitOneGroup key setF near orig st k).1.get? i = st.1.get? i := by
  by_cases h2 : (groupPositions key orig k).length ≤ 1
  · rw [splitOneGroup_skip_short key setF near orig st k h2]
  · cases huniq : sortedUnique (dbscanLabels near
      ((groupPositions key orig k).filterMap orig.get?)) with
    | nil => rw [splitOneGroup_skip_nil key setF near orig st k h2 huniq]
    | cons b rest =>
      by_cases hrest : rest = []
      · rw [hrest] at huniq
        rw [splitOneGroup_skip_single key setF near orig st k b h2 huniq]
      · rw [splitOneGroup_eq key setF near orig st k b rest h2 huniq hrest]
        have hnotin : ∀ c ∈ rest, i ∉ ((groupPositions key orig k).zip
            (dbscanLabels near ((groupPositions key orig k).filterMap
              orig.get?))).filterMap
            (fun q => if q.2 == c then some q.1 else none) := by
          intro c _ hin
          rcases (mem_splitPs _ _ c i).mp hin with ⟨q, hq, hqi, -⟩
          have := (List.mem_zip hq).1
          rw [hqi] at this
          exact hi this
        have hnd := sortedUnique_nodup (dbscanLabels near
          ((groupPositions key orig k).filterMap orig.get?))
        rw [huniq] at hnd
        rcases List.nodup_cons.mp hnd with ⟨hbnotin, hndrest⟩
        have hb : ∀ c ∈ rest, (c == b) = false := by
          intro c hc
          rw [Bool.eq_false_iff]
          intro h
          rw [beq_iff_eq.mp h] at hc
          exact hbnotin hc
        exact (splitFold_get? setF _ b rest st.1 st.2 i hb hndrest
          (fun c hc c' hc' hin => absurd hin (hnotin c hc))).1 hnotin

theorem splitOneGroup_snd_ge (key : Rec → κ) [DecidableEq κ]
    (setF : Rec → Int → Rec) (near : Rec → Rec → Bool) (orig : List Rec)
    (st : List Rec × Int) (k : κ) :
    st.2 ≤ (splitOneGroup key setF near orig st k).2 := by
  by_cases h2 : (groupPositions key orig k).length ≤ 1
  · rw [splitOneGroup_skip_short key setF near orig st k h2]
  · cases huniq : sortedUnique (dbscanLabels near
      ((groupPositions key orig k).filterMap orig.get?)) with
    | nil => rw [splitOneGroup_skip_nil key setF near orig st k h2 huniq]
    | cons b rest =>
      by_cases hrest : rest = []
      · rw [hrest] at huniq
        rw [splitOneGroup_skip_single key setF near orig st k b h2 huniq]
      · rw [splitOneGroup_eq key setF near orig st k b rest h2 huniq hrest]
        have hnd := sortedUnique_nodup (dbscanLabels near
          ((groupPositions key orig k).filterMap orig.get?))
        rw [huniq] at hnd
        rcases List.nodup_cons.mp hnd with ⟨hbnotin, -⟩
        have hb : ∀ c ∈ rest, (c == b) = false := by
          intro c hc
          rw [Bool.eq_false_iff]
          intro h
          rw [beq_iff_eq.mp h] at hc
          exact hbnotin hc
        rw [splitFold_snd setF _ b rest st.1 st.2 hb]
        have : (0 : Int) ≤ rest.length := Int.ofNat_nonneg _
        omega

theorem splitOneGroup_pair (key : Rec → κ) [DecidableEq κ]
    (setF : Rec → Int → Rec) (near : Rec → Rec → Bool) (orig : List Rec)
    (st : List Rec × Int) (k : κ) (t c i : Nat)
    (h2 : ¬ (groupPositions key orig k).length ≤ 1)
    (ht : (groupPositions key orig k).get? t = some i)
    (hc : (dbscanLabels near ((groupPositions key orig k).filterMap
      orig.get?)).get? t = some c) :
    (c = 0 → (splitOneGroup key setF near orig st k).1.get? i = st.1.get? i) ∧
    (c ≠ 0 → ∃ tc : Nat,
      (sortedUnique (dbscanLabels near ((groupPositions key orig k).filterMap
        orig.get?))).get? (tc + 1) = some c ∧
      (splitOneGroup key setF near orig st k).1.get? i =
        (st.1.get? i).map (fun r => setF r (st.2 + tc)) ∧
      st.2 ≤ st.2 + (tc : Int) ∧
      st.2 + (tc : Int) < (splitOneGroup key setF near orig st k).2) := by
  have hlt := groupPositions_lt key orig k
  have hndidxs := groupPositions_nodup key orig k
  have hsublen : ((groupPositions key orig k).filterMap orig.get?).length =
      (groupPositions key orig k).length :=
    filterMap_get?_length orig _ hlt
  have hlslen : (dbscanLabels near ((groupPositions key orig k).filterMap
      orig.get?)).length = (groupPositions key orig k).length := by
    rw [dbscanLabels_length, hsublen]
  have hpos : 0 < ((groupPositions key orig k).filterMap orig.get?).length := by
    rw [hsublen]; omega
  have h0mem : (0 : Nat) ∈ dbscanLabels near
      ((groupPositions key orig k).filterMap orig.get?) :=
    dbscanLabels_zero_mem near _ hpos
  have h0u : (0 : Nat) ∈ sortedUnique (dbscanLabels near
      ((groupPositions key orig k).filterMap orig.get?)) :=
    (mem_sortedUnique _ 0).mpr h0mem
  have hcmem : c ∈ dbscanLabels near
      ((groupPositions key orig k).filterMap orig.get?) := List.get?_mem hc
  have hcu : c ∈ sortedUnique (dbscanLabels near
      ((groupPositions key orig k).filterMap orig.get?)) :=
    (mem_sortedUnique _ c).mpr hcmem
  cases huniq : sortedUnique (dbscanLabels near
      ((groupPositions key orig k).filterMap orig.get?)) with
  | nil =>
    rw [huniq] at h0u
    cases h0u
  | cons b rest =>
    have hb0 : b = 0 := by
      have hh := sortedUnique_headD_eq_zero _ h0mem
      rw [huniq] at hh
      exact hh
    subst hb0
    have hnd := sortedUnique_nodup (dbscanLabels near
      ((groupPositions key orig k).filterMap orig.get?))
    rw [huniq] at hnd
    rcases List.nodup_cons.mp hnd with ⟨hbnotin, hndrest⟩
    have hb : ∀ c' ∈ rest, (c' == 0) = false := by
      intro c' hc'
      rw [Bool.eq_false_iff]
      intro h
      rw [beq_iff_eq.mp h] at hc'
      exact hbnotin hc'
    have hdisj : ∀ c1 ∈ rest, ∀ c2 ∈ rest,
        i ∈ ((groupPositions key orig k).zip (dbscanLabels near
          ((groupPositions key orig k).filterMap orig.get?))).filterMap
          (fun q => if q.2 == c1 then some q.1 else none) →
        i ∈ ((groupPositions key orig k).zip (dbscanLabels near
          ((groupPositions key orig k).filterMap orig.get?))).filterMap
          (fun q => if q.2 == c2 then some q.1 else none) → c1 = c2 :=
      fun c1 _ c2 _ hin1 hin2 => splitPs_disjoint _ _ hndidxs i c1 c2 hin1 hin2
    constructor
    · intro hc0
      subst hc0
      by_cases hrest : rest = []
      · rw [hrest] at huniq
        rw [splitOneGroup_skip_single key setF near orig st k 0 h2 huniq]
      · rw [splitOneGroup_eq key setF near orig st k 0 rest h2 huniq hrest]
        have hnotin : ∀ c' ∈ rest,
            i ∉ ((groupPositions key orig k).zip (dbscanLabels near
              ((groupPositions key orig k).filterMap orig.get?))).filterMap
              (fun q => if q.2 == c' then some q.1 else none) := by
          intro c' hc' hin
          rcases (mem_splitPs _ _ c' i).mp hin with ⟨q, hq, hqi, hqc⟩
          rcases mem_zip_get? _ _ q hq with ⟨t', ht', hl'⟩
          rw [hqi] at ht'
          have htlt : t' < (groupPositions key orig k).length :=
            (List.get?_eq_some.mp ht').1
          have hteq : t' = t := List.get?_inj htlt hndidxs (ht'.trans ht.symm)
          rw [hteq] at hl'
          rw [hc] at hl'
          injection hl' with hl'
          rw [hqc] at hl'
          rw [← hl'] at hc'
          exact hbnotin hc'
        exact (splitFold_get? setF _ 0 rest st.1 st.2 i hb hndrest hdisj).1
          hnotin
    · intro hcne
      have hcrest : c ∈ rest := by
        rw [huniq] at hcu
        rcases List.mem_cons.mp hcu with h | h
        · exact absurd h hcne
        · exact h
      have hrest : rest ≠ [] := by
        intro h
        rw [h] at hcrest
        cases hcrest
      rcases List.mem_iff_get?.mp hcrest with ⟨tc, htc⟩
      have hin : i ∈ ((groupPositions key orig k).zip (dbscanLabels near
          ((groupPositions key orig k).filterMap orig.get?))).filterMap
          (fun q => if q.2 == c then some q.1 else none) :=
        (mem_splitPs _ _ c i).mpr ⟨(i, c), zip_get?_mem _ _ t i c ht hc,
          rfl, rfl⟩
      have hfold := (splitFold_get? setF _ 0 rest st.1 st.2 i hb hndrest
        hdisj).2 tc c htc hin
      have hsnd := splitFold_snd setF (fun c' =>
        ((groupPositions key orig k).zip (dbscanLabels near
          ((groupPositions key orig k).filterMap orig.get?))).filterMap
          (fun q => if q.2 == c' then some q.1 else none)) 0 rest st.1 st.2 hb
      have htclt : tc < rest.length := (List.get?_eq_some.mp htc).1
      refine ⟨tc, ?_, ?_, ?_, ?_⟩
      · simpa using htc
      · rw [splitOneGroup_eq key setF near orig st k 0 rest h2 huniq hrest]
        exact hfold
      · omega
      · rw [splitOneGroup_eq key setF near orig st k 0 rest h2 huniq hrest]
        rw [hsnd]
        omega

theorem foldl_splitOneGroup_fix (key : Rec → κ) [DecidableEq κ]
    (setF : Rec → Int → Rec) (near : Rec → Rec → Bool) (orig : List Rec)
    (i : Nat)
    (hstep : ∀ st k, (splitOneGroup key setF near orig st k).1.get? i =
      st.1.get? i) :
    ∀ (ks : List κ) (st : List Rec × Int),
      (ks.foldl (splitOneGroup key setF near orig) st).1.get? i =
        st.1.get? i := by
  intro ks
  induction ks with
  | nil => intro st; rfl
  | cons k ks ih =>
    intro st
    rw [List.foldl_cons, ih _, hstep st k]

theorem foldl_splitOneGroup_untouched (key : Rec → κ) [DecidableEq κ]
    (setF : Rec → Int → Rec) (near : Rec → Rec → Bool) (orig : List Rec)
    (i : Nat) :
    ∀ (ks : List κ) (st : List Rec × Int),
      (∀ k ∈ ks, i ∉ groupPositions key orig k) →
      (ks.foldl (splitOneGroup key setF near orig) st).1.get? i =
        st.1.get? i := by
  intro ks
  induction ks with
  | nil => intro st _; rfl
  | cons k ks ih =>
    intro st h
    rw [List.foldl_cons, ih _ (fun k' hk' => h k' (List.mem_cons_of_mem _ hk'))]
    exact splitOneGroup_untouched key setF near orig st k i
      (h k (List.mem_cons_self _ _))

theorem foldl_splitOneGroup_snd (key : Rec → κ) [DecidableEq κ]
    (setF : Rec → Int → Rec) (near : Rec → Rec → Bool) (orig : List Rec) :
    ∀ (ks : List κ) (st : List Rec × Int),
      st.2 ≤ (ks.foldl (splitOneGroup key setF near orig) st).2 := by
  intro ks
  induction ks with
  | nil => intro st; exact le_refl _
  | cons k ks ih =>
    intro st
    rw [List.foldl_cons]
    exact le_trans (splitOneGroup_snd_ge key setF near orig st k) (ih _)

theorem foldl_max_ge (l : List Int) :
    ∀ a : Int, a ≤ l.foldl max a ∧ ∀ x ∈ l, x ≤ l.foldl max a := by
  induction l with
  | nil =>
    intro a
    refine ⟨le_refl a, ?_⟩
    intro x hx
    cases hx
  | cons b bs ih =>
    intro a
    rw [List.foldl_cons]
    refine ⟨le_trans (le_max_left a b) (ih (max a b)).1, ?_⟩
    intro x hx
    rcases List.mem_cons.mp hx with rfl | hx
    · exact le_trans (le_max_right a x) (ih (max a x)).1
    · exact (ih (max a b)).2 x hx

theorem maxIdOf_ge (l : List Int) : ∀ x ∈ l, x ≤ maxIdOf l := by
  intro x hx
  cases l with
  | nil => cases hx
  | cons a as =>
    rw [maxIdOf]
    rcases List.mem_cons.mp hx with rfl | hx
    · exact (foldl_max_ge as x).1
    · exact (foldl_max_ge as a).2 x hx

theorem dbscanLabels_zero_of_short (near : α → α → Bool) (l : List α)
    (h : l.length ≤ 1) (t c : Nat)
    (hc : (dbscanLabels near l).get? t = some c) : c = 0 := by
  have htlt : t < (dbscanLabels near l).length := (List.get?_eq_some.mp hc).1
  rw [dbscanLabels_length] at htlt
  have ht0 : t = 0 := by omega
  subst ht0
  rw [dbscanLabels_get? near l (by omega), labelAt_zero] at hc
  injection hc with h
  exact h.symm

theorem splitGroups_eq_of_ne_nil (key : Rec → κ) [DecidableEq κ]
    (le : κ → κ → Bool) (getF : Rec → Int) (setF : Rec → Int → Rec)
    (near : Rec → Rec → Bool) (rows : List Rec) (h : rows ≠ []) :
    splitGroups key le getF setF near rows =
      ((sortLe le (dropDuplicatesBy (fun x => x) (rows.map key))).foldl
        (splitOneGroup key setF near rows)
        (rows, maxIdOf (rows.map getF) + 1)).1 := by
  cases rows with
  | nil => exact absurd rfl h
  | cons a as => rfl

theorem splitOneGroup_inv (key : Rec → κ) [DecidableEq κ]
    (setF : Rec → Int → Rec) (near : Rec → Rec → Bool) (orig : List Rec)
    (st : List Rec × Int) (k : κ) (n0 : Int) (i : Nat)
    (hss : ∀ r v v', setF (setF r v') v = setF r v)
    (hA : st.1.get? i = orig.get? i ∨ ∃ r v, orig.get? i = some r ∧
      st.1.get? i = some (setF r v) ∧ n0 ≤ v ∧ v < st.2)
    (hn : n0 ≤ st.2) :
    (splitOneGroup key setF near orig st k).1.get? i = orig.get? i ∨
      ∃ r v, orig.get? i = some r ∧
        (splitOneGroup key setF near orig st k).1.get? i = some (setF r v) ∧
        n0 ≤ v ∧ v < (splitOneGroup key setF near orig st k).2 := by
  have hsnd := splitOneGroup_snd_ge key setF near orig st k
  by_cases hi : i ∈ groupPositions key orig k
  · by_cases h2 : (groupPositions key orig k).length ≤ 1
    · rw [splitOneGroup_skip_short key setF near orig st k h2]
      rcases hA with h | ⟨r, v, h1, h2', h3, h4⟩
      · exact Or.inl h
      · exact Or.inr ⟨r, v, h1, h2', h3, h4⟩
    · rcases List.mem_iff_get?.mp hi with ⟨t, ht⟩
      have htlt : t < (groupPositions key orig k).length :=
        (List.get?_eq_some.mp ht).1
      have hlslen : (dbscanLabels near ((groupPositions key orig k).filterMap
          orig.get?)).length = (groupPositions key orig k).length := by
        rw [dbscanLabels_length]
        exact filterMap_get?_length orig _ (groupPositions_lt key orig k)
      have hltls : t < (dbscanLabels near ((groupPositions key orig k).filterMap
          orig.get?)).length := by omega
      rcases List.get?_eq_some.mpr ⟨hltls, rfl⟩ with hcget
      have hpair := splitOneGroup_pair key setF near orig st k t
        ((dbscanLabels near ((groupPositions key orig k).filterMap
          orig.get?)).get ⟨t, hltls⟩) i h2 ht (List.get?_eq_get hltls)
      by_cases hc0 : (dbscanLabels near ((groupPositions key orig k).filterMap
          orig.get?)).get ⟨t, hltls⟩ = 0
      · rw [hpair.1 hc0]
        rcases hA with h | ⟨r, v, h1, h2', h3, h4⟩
        · exact Or.inl h
        · exact Or.inr ⟨r, v, h1, h2', h3, lt_of_lt_of_le h4 hsnd⟩
      · rcases hpair.2 hc0 with ⟨tc, -, hres, hge, hlt⟩
        rcases hA with h | ⟨r, v', h1, h2', h3, h4⟩
        · rw [hres, h]
          cases horig : orig.get? i with
          | none => exact Or.inl rfl
          | some r =>
            refine Or.inr ⟨r, st.2 + tc, rfl, rfl, le_trans hn hge, hlt⟩
        · rw [hres, h2']
          refine Or.inr ⟨r, st.2 + tc, h1, ?_, le_trans hn hge, hlt⟩
          show some (setF (setF r v') (st.2 + (tc : Int))) =
            some (setF r (st.2 + (tc : Int)))
          rw [hss]
  · rw [splitOneGroup_untouched key setF near orig st k i hi]
    rcases hA with h | ⟨r, v, h1, h2', h3, h4⟩
    · exact Or.inl h
    · exact Or.inr ⟨r, v, h1, h2', h3, lt_of_lt_of_le h4 hsnd⟩

theorem foldl_splitOneGroup_inv (key : Rec → κ) [DecidableEq κ]
    (setF : Rec → Int → Rec) (near : Rec → Rec → Bool) (orig : List Rec)
    (n0 : Int) (i : Nat) (hss : ∀ r v v', setF (setF r v') v = setF r v) :
    ∀ (ks : List κ) (st : List Rec × Int),
      (st.1.get? i = orig.get? i ∨ ∃ r v, orig.get? i = some r ∧
        st.1.get? i = some (setF r v) ∧ n0 ≤ v ∧ v < st.2) →
      n0 ≤ st.2 →
      ((ks.foldl (splitOneGroup key setF near orig) st).1.get? i =
          orig.get? i ∨
        ∃ r v, orig.get? i = some r ∧
          (ks.foldl (splitOneGroup key setF near orig) st).1.get? i =
            some (setF r v) ∧ n0 ≤ v ∧
          v < (ks.foldl (splitOneGroup key setF near orig) st).2) := by
  intro ks
  induction ks with
  | nil => intro st hA _; exact hA
  | cons k ks ih =>
    intro st hA hn
    rw [List.foldl_cons]
    refine ih _ (splitOneGroup_inv key setF near orig st k n0 i hss hA hn) ?_
    exact le_trans hn (splitOneGroup_snd_ge key setF near orig st k)

theorem splitGroups_spec (key : Rec → κ) [DecidableEq κ] (le : κ → κ → Bool)
    (getF : Rec → Int) (setF : Rec → Int → Rec) (near : Rec → Rec → Bool)
    (rows : List Rec) (hss : ∀ r v v', setF (setF r v') v = setF r v) :
    SplitterSpec key getF setF near rows
      (splitGroups key le getF setF near rows) := by
  by_cases hrows : rows = []
  · subst hrows
    refine ⟨?_, ?_, ?_, ?_⟩
    · intro i r hget
      cases hget
    · intro i r t hget
      cases hget
    · intro i
      exact Or.inl rfl
    · intro i i' t t' c c' r r' hget
      cases hget
  · rw [splitGroups_eq_of_ne_nil key le getF setF near rows hrows]
    refine ⟨?_, ?_, ?_, ?_⟩
    · -- small groups untouched
      intro i r hget hsmall
      rw [foldl_splitOneGroup_fix key setF near rows i ?_ _ _]
      · exact hget
      · intro st k
        by_cases hk : k = key r
        · subst hk
          rw [splitOneGroup_skip_short key setF near rows st _ hsmall]
        · refine splitOneGroup_untouched key setF near rows st k i ?_
          intro hmem
          rcases (mem_groupPositions key rows k i).mp hmem with ⟨r1, hg1, hk1⟩
          rw [hget] at hg1
          injection hg1 with hg1
          rw [← hg1] at hk1
          exact hk hk1.symm
    · -- base component untouched
      intro i r t hget hidx hlab
      rw [foldl_splitOneGroup_fix key setF near rows i ?_ _ _]
      · exact hget
      · intro st k
        by_cases hk : k = key r
        · subst hk
          by_cases h2 : (groupPositions key rows (key r)).length ≤ 1
          · rw [splitOneGroup_skip_short key setF near rows st _ h2]
          · exact (splitOneGroup_pair key setF near rows st (key r) t 0 i h2
              hidx hlab).1 rfl
        · refine splitOneGroup_untouched key setF near rows st k i ?_
          intro hmem
          rcases (mem_groupPositions key rows k i).mp hmem with ⟨r1, hg1, hk1⟩
          rw [hget] at hg1
          injection hg1 with hg1
          rw [← hg1] at hk1
          exact hk hk1.symm
    · -- freshness above the pre-call maximum
      intro i
      have h := foldl_splitOneGroup_inv key setF near rows
        (maxIdOf (rows.map getF) + 1) i hss
        (sortLe le (dropDuplicatesBy (fun x => x) (rows.map key)))
        (rows, maxIdOf (rows.map getF) + 1) (Or.inl rfl) (le_refl _)
      rcases h with h | ⟨r, v, h1, h2, h3, -⟩
      · exact Or.inl h
      · exact Or.inr ⟨r, v, h1, h2, by omega⟩
    · -- relabeled rows: fresh ids, distinct per component within a group
      intro i i' t t' c c' r r' hgeti hgeti' hkeq hidx hlab hidx' hlab' hc0 hc0'
      have hlt := groupPositions_lt key rows (key r)
      have h2 : ¬ (groupPositions key rows (key r)).length ≤ 1 := by
        intro h
        refine hc0 (dbscanLabels_zero_of_short near _ ?_ t c hlab)
        rw [filterMap_get?_length rows _ hlt]
        exact h
      have hk0mem : key r ∈ sortLe le (dropDuplicatesBy (fun x => x)
          (rows.map key)) := by
        refine (sortLe_perm le _).mem_iff.mpr ?_
        refine (mem_dropDuplicatesBy_id _ _).mpr ?_
        exact List.mem_map_of_mem key (List.get?_mem hgeti)
      have hkeysnd : (sortLe le (dropDuplicatesBy (fun x => x)
          (rows.map key))).Nodup :=
        (sortLe_perm le _).nodup_iff.mpr (dropDuplicatesBy_id_nodup _)
      rcases List.append_of_mem hk0mem with ⟨K1, K2, hsplit⟩
      rw [hsplit] at hkeysnd
      rcases List.nodup_append.mp hkeysnd with ⟨-, hnd2, hdisj12⟩
      have hk0K1 : key r ∉ K1 := by
        intro hmem
        exact hdisj12 hmem (List.mem_cons_self _ _)
      have hk0K2 : key r ∉ K2 := (List.nodup_cons.mp hnd2).1
      rw [hsplit, List.foldl_append, List.foldl_cons]
      have huntouchPos : ∀ (j : Nat) (rj : Rec), rows.get? j = some rj →
          key rj = key r → ∀ ks : List κ, key r ∉ ks →
          ∀ k ∈ ks, j ∉ groupPositions key rows k := by
        intro j rj hgj hkj ks hks k hk hmem
        rcases (mem_groupPositions key rows k j).mp hmem with ⟨r1, hg1, hk1⟩
        rw [hgj] at hg1
        injection hg1 with hg1
        rw [← hg1] at hk1
        rw [← hk1, hkj] at hk
        exact hks hk
      have hst1i : (K1.foldl (splitOneGroup key setF near rows)
          (rows, maxIdOf (rows.map getF) + 1)).1.get? i = rows.get? i :=
        foldl_splitOneGroup_untouched key setF near rows i K1 _
          (huntouchPos i r hgeti rfl K1 hk0K1)
      have hst1i' : (K1.foldl (splitOneGroup key setF near rows)
          (rows, maxIdOf (rows.map getF) + 1)).1.get? i' = rows.get? i' :=
        foldl_splitOneGroup_untouched key setF near rows i' K1 _
          (huntouchPos i' r' hgeti' hkeq K1 hk0K1)
      have hsndK1 : maxIdOf (rows.map getF) + 1 ≤
          (K1.foldl (splitOneGroup key setF near rows)
            (rows, maxIdOf (rows.map getF) + 1)).2 :=
        foldl_splitOneGroup_snd key setF near rows K1 _
      rcases (splitOneGroup_pair key setF near rows _ (key r) t c i h2
        hidx hlab).2 hc0 with ⟨tc, hut, hresi, hgei, -⟩
      rcases (splitOneGroup_pair key setF near rows _ (key r) t' c' i' h2
        hidx' hlab').2 hc0' with ⟨tc', hut', hresi', hgei', -⟩
      have hresK2i : (K2.foldl (splitOneGroup key setF near rows)
          (splitOneGroup key setF near rows
            (K1.foldl (splitOneGroup key setF near rows)
              (rows, maxIdOf (rows.map getF) + 1)) (key r))).1.get? i =
          (splitOneGroup key setF near rows
            (K1.foldl (splitOneGroup key setF near rows)
              (rows, maxIdOf (rows.map getF) + 1)) (key r)).1.get? i :=
        foldl_splitOneGroup_untouched key setF near rows i K2 _
          (huntouchPos i r hgeti rfl K2 hk0K2)
      have hresK2i' : (K2.foldl (splitOneGroup key setF near rows)
          (splitOneGroup key setF near rows
            (K1.foldl (splitOneGroup key setF near rows)
              (rows, maxIdOf (rows.map getF) + 1)) (key r))).1.get? i' =
          (splitOneGroup key setF near rows
            (K1.foldl (splitOneGroup key setF near rows)
              (rows, maxIdOf (rows.map getF) + 1)) (key r)).1.get? i' :=
        foldl_splitOneGroup_untouched key setF near rows i' K2 _
          (huntouchPos i' r' hgeti' hkeq K2 hk0K2)
      have hndu := sortedUnique_nodup (dbscanLabels near
        ((groupPositions key rows (key r)).filterMap rows.get?))
      refine ⟨(K1.foldl (splitOneGroup key setF near rows)
          (rows, maxIdOf (rows.map getF) + 1)).2 + tc,
        (K1.foldl (splitOneGroup key setF near rows)
          (rows, maxIdOf (rows.map getF) + 1)).2 + tc', ?_, ?_, ?_, ?_, ?_⟩
      · rw [hresK2i, hresi, hst1i, hgeti]
        rfl
      · rw [hresK2i', hresi', hst1i', hgeti']
        rfl
      · intro r2 h2mem
        have := maxIdOf_ge (rows.map getF) (getF r2)
          (List.mem_map_of_mem getF h2mem)
        omega
      · intro r2 h2mem
        have := maxIdOf_ge (rows.map getF) (getF r2)
          (List.mem_map_of_mem getF h2mem)
        omega
      · constructor
        · intro hv
          have htceq : tc = tc' := by omega
          rw [htceq] at hut
          rw [hut] at hut'
          exact Option.some.inj hut'
        · intro hcc
          rw [hcc] at hut
          have htlt : tc + 1 < (sortedUnique (dbscanLabels near
              ((groupPositions key rows (key r)).filterMap
                rows.get?))).length := (List.get?_eq_some.mp hut).1
          have : tc + 1 = tc' + 1 :=
            List.get?_inj htlt hndu (hut.trans hut'.symm)
          omega

/-- C6: each splitter variant — spatial reconnect within
`(spatial_cluster_id, temporal_cluster_id)` groups, spatial reconnect within
`spatiotemporal_cluster_id` groups, temporal reconnect within
`spatiotemporal_cluster_id` groups — satisfies the shared contract: groups
of size ≤ 1 are untouched, the base component (first label, 0) keeps the
original id, every other component's rows get ids strictly above the
pre-call maximum of the mutated column (so they collide with no
pre-existing id), with distinct components of a group receiving distinct
fresh ids; the spatiotemporal variants are the identity when the
`spatiotemporal_cluster_id` column is absent. -/
theorem C6_splitter_fresh_ids (nearS : ℚ × ℚ → ℚ × ℚ → Bool) (eDays : ℚ)
    (F : Frame) :
    ((spatialReconnectWithinTemporal nearS F).rows =
        splitGroups (fun r => (r.spatial_cluster_id, r.temporal_cluster_id))
          pairLe (fun r => r.spatial_cluster_id) setSpatial
          (spatialNearRec nearS) F.rows ∧
      SplitterSpec (fun r => (r.spatial_cluster_id, r.temporal_cluster_id))
        (fun r => r.spatial_cluster_id) setSpatial (spatialNearRec nearS)
        F.rows (spatialReconnectWithinTemporal nearS F).rows) ∧
    (F.hasSTC = true →
      (spatialReconnectST nearS F).rows =
        splitGroups (fun r => r.spatiotemporal_cluster_id) intLe
          (fun r => r.spatiotemporal_cluster_id) setSTC
          (spatialNearRec nearS) F.rows ∧
      SplitterSpec (fun r => r.spatiotemporal_cluster_id)
        (fun r => r.spatiotemporal_cluster_id) setSTC (spatialNearRec nearS)
        F.rows (spatialReconnectST nearS F).rows) ∧
    (F.hasSTC = true →
      (temporalReconnectST eDays F).rows =
        splitGroups (fun r => r.spatiotemporal_cluster_id) intLe
          (fun r => r.spatiotemporal_cluster_id) setSTC
          (temporalNearRec eDays) F.rows ∧
      SplitterSpec (fun r => r.spatiotemporal_cluster_id)
        (fun r => r.spatiotemporal_cluster_id) setSTC (temporalNearRec eDays)
        F.rows (temporalReconnectST eDays F).rows) ∧
    (F.hasSTC = false → spatialReconnectST nearS F = F ∧
      temporalReconnectST eDays F = F) := by
  refine ⟨⟨rfl, ?_⟩, ?_, ?_, ?_⟩
  · exact splitGroups_spec _ _ _ _ _ _ (fun r v v' => rfl)
  · intro hstc
    rw [spatialReconnectST, if_pos hstc]
    exact ⟨rfl, splitGroups_spec _ _ _ _ _ _ (fun r v v' => rfl)⟩
  · intro hstc
    rw [temporalReconnectST, if_pos hstc]
    exact ⟨rfl, splitGroups_spec _ _ _ _ _ _ (fun r v v' => rfl)⟩
  · intro hstc0
    constructor
    · rw [spatialReconnectST, if_neg (by rw [hstc0]; intro h; cases h)]
    · rw [temporalReconnectST, if_neg (by rw [hstc0]; intro h; cases h)]

theorem fullPipeline_ok_validate (nearS : ℚ × ℚ → ℚ × ℚ → Bool)
    (eDist eDays today : ℚ) (raw : List RawRec) (H : Frame)
    (h : fullPipeline nearS eDist eDays today raw = .ok H) :
    validate nearS eDist eDays H = .ok H ∧ H.hasSTC = true := by
  unfold fullPipeline at h
  cases hsd : spatialDBSCAN nearS ((preprocess today raw).map toSRec) with
  | error u =>
    simp only [hsd] at h
    cases h
  | ok F0 =>
    simp only [hsd] at h
    cases hloop : iterLoop nearS eDist eDays 5 F0 with
    | error e =>
      simp only [hloop] at h
      cases h
    | ok F1 =>
      simp only [hloop] at h
      cases hval : validate nearS eDist eDays F1 with
      | error e =>
        simp only [hval] at h
        cases h
      | ok F2 =>
        simp only [hval] at h
        cases h
        have h21 : H = F1 := validate_ok_eq nearS eDist eDays F1 H hval
        subst h21
        exact ⟨hval, iterLoop_ok_hasSTC nearS eDist eDays 4 F0 H hloop⟩

/-- C1: whenever the full pipeline (sanitize → spatial DBSCAN → iterative
clustering → final validation) returns without raising, every two rows of a
final spatiotemporal group are linked, inside the group, by a chain of rows
whose consecutive members are within `e_dist` km under the haversine metric,
and by a chain whose consecutive members are within `e_days` days; i.e.
every group re-clusters to exactly one component on both axes.  `nearS` is
sklearn's haversine ε-test, tied to the real haversine distance by `hS`. -/
theorem C1_pipeline_connectivity (nearS : ℚ × ℚ → ℚ × ℚ → Bool)
    (eDist eDays today : ℚ) (raw : List RawRec) (H : Frame) (g : Int)
    (a b : Rec)
    (hS : ∀ p q, nearS p q = true ↔ havNear eDist p q)
    (heDist : 0 ≤ eDist) (heD : 0 ≤ eDays)
    (hok : fullPipeline nearS eDist eDays today raw = .ok H)
    (hg : g ∈ stcIds H) (ha : a ∈ groupRows H g) (hb : b ∈ groupRows H g) :
    chainedProp (fun x y => havNear eDist (x.latitude1, x.longitude1)
      (y.latitude1, y.longitude1)) (groupRows H g) a b ∧
    chainedProp (fun x y =>
      |(x.startdate.days : ℚ) - (y.startdate.days : ℚ)| ≤ eDays)
      (groupRows H g) a b := by
  rcases fullPipeline_ok_validate nearS eDist eDays today raw H hok with
    ⟨hval, hstc⟩
  have hsymS : ∀ p q, nearS p q = nearS q p := by
    intro p q
    cases hpq : nearS p q <;> cases hqp : nearS q p
    · rfl
    · exfalso
      have h2 : havNear eDist p q :=
        (havNear_symm eDist q p).mp ((hS q p).mp hqp)
      have h3 := (hS p q).mpr h2
      rw [hpq] at h3
      cases h3
    · exfalso
      have h2 : havNear eDist q p :=
        (havNear_symm eDist p q).mp ((hS p q).mp hpq)
      have h3 := (hS q p).mpr h2
      rw [hqp] at h3
      cases h3
    · rfl
  have hreflS : ∀ p, nearS p p = true := fun p =>
    (hS p p).mpr (havNear_refl eDist heDist p)
  have hnoerr : ¬ ∃ e, validate nearS eDist eDays H = .error e := by
    rw [hval]
    rintro ⟨e, he⟩
    cases he
  have hnodisc : ¬ ∃ g' ∈ stcIds H,
      ¬ (∀ x ∈ groupRows H g', ∀ y ∈ groupRows H g',
          chainedIn (spatialNearRec nearS) (groupRows H g') x y) ∨
      ¬ (∀ x ∈ groupRows H g', ∀ y ∈ groupRows H g',
          chainedIn (temporalNearRec eDays) (groupRows H g') x y) :=
    fun hx => hnoerr ((validate_error_iff_disconnected nearS eDist eDays H
      hstc hsymS hreflS heD).mpr hx)
  push_neg at hnodisc
  rcases hnodisc g hg with ⟨hA, hB⟩
  constructor
  · refine Relation.ReflTransGen.mono ?_ (hA a ha b hb)
    rintro x y ⟨hx, hy, hxy⟩
    exact ⟨hx, hy, (hS _ _).mp hxy⟩
  · refine Relation.ReflTransGen.mono ?_ (hB a ha b hb)
    rintro x y ⟨hx, hy, hxy⟩
    exact ⟨hx, hy, of_decide_eq_true hxy⟩

set_option maxRecDepth 10000 in
theorem C1_pipeline_witness :
    chainedProp (fun x y => havNear 1 (x.latitude1, x.longitude1)
        (y.latitude1, y.longitude1))
      (groupRows ⟨[⟨1, 0, 0, ⟨18262, 2020⟩, 0, 0, 0⟩], true, true⟩ 0)
      ⟨1, 0, 0, ⟨18262, 2020⟩, 0, 0, 0⟩ ⟨1, 0, 0, ⟨18262, 2020⟩, 0, 0, 0⟩ ∧
    chainedProp (fun x y =>
        |(x.startdate.days : ℚ) - (y.startdate.days : ℚ)| ≤ 1)
      (groupRows ⟨[⟨1, 0, 0, ⟨18262, 2020⟩, 0, 0, 0⟩], true, true⟩ 0)
      ⟨1, 0, 0, ⟨18262, 2020⟩, 0, 0, 0⟩ ⟨1, 0, 0, ⟨18262, 2020⟩, 0, 0, 0⟩ :=
  C1_pipeline_connectivity
    (fun p q => @decide (havNear 1 p q) (Classical.propDecidable _)) 1 1 20000
    [⟨1, some 0, some 0, some ⟨18262, 2020⟩⟩]
    ⟨[⟨1, 0, 0, ⟨18262, 2020⟩, 0, 0, 0⟩], true, true⟩ 0
    ⟨1, 0, 0, ⟨18262, 2020⟩, 0, 0, 0⟩ ⟨1, 0, 0, ⟨18262, 2020⟩, 0, 0, 0⟩
    (fun p q => @decide_eq_true_iff _ (Classical.propDecidable _))
    (by norm_num) (by norm_num) rfl (by decide) (by decide) (by decide)
